import Mathlib

/-!
Shallow embedding of the foodplanner recipe ingestion and ingredient
aggregation core (src/utils.ts and the main application module), together
with theorems settling the specification claims.

JavaScript numbers are modelled as exact rationals (`ℚ`), with the
`NaN`/`Infinity` cases tracked explicitly by `JsNum` where the code can
produce them (`Number.parseFloat`).  JavaScript strings are Lean `String`s;
`toLowerCase`/`toUpperCase` are modelled on the ASCII range.
-/

set_option allowUnsafeReducibility true
attribute [local semireducible] Rat.mul Rat.add Rat.sub Rat.div Rat.neg Rat.inv Rat.ofScientific

/-- The character class of JavaScript's `\s` regex escape and of
`String.prototype.trim` (WhiteSpace ∪ LineTerminator). -/
def jsIsWs (c : Char) : Bool :=
  let n := c.toNat
  (9 ≤ n && n ≤ 13) || n == 32 || n == 160 || n == 5760 ||
    (8192 ≤ n && n ≤ 8202) || n == 8232 || n == 8233 || n == 8239 ||
    n == 8287 || n == 12288 || n == 65279

/-- `String.prototype.trim`. -/
def jsTrim (s : String) : String :=
  String.mk (((s.data.dropWhile jsIsWs).reverse.dropWhile jsIsWs).reverse)

/-- `c` is an ASCII decimal digit (JavaScript regex `\d`). -/
def isAsciiDigit (c : Char) : Bool :=
  48 ≤ c.toNat && c.toNat ≤ 57

/-- Helper for `jsSplitWs`: accumulate the current chunk, closing it at the
start of every maximal run of whitespace (the `inSep` flag records that the
previous character was part of a separator run), exactly as `split(/\s+/)`
does. -/
def splitWsAux : Bool → List Char → List Char → List (List Char)
  | _, [], acc => [acc.reverse]
  | inSep, c :: cs, acc =>
    if jsIsWs c then
      if inSep then splitWsAux true cs acc
      else acc.reverse :: splitWsAux true cs []
    else splitWsAux false cs (c :: acc)

/-- `s.split(/\s+/)`: chunks between maximal whitespace runs (the empty string
yields `[""]`, a leading/trailing run yields an empty boundary chunk). -/
def jsSplitWs (s : String) : List String :=
  (splitWsAux false s.data []).map String.mk

/-- ASCII model of `String.prototype.toLowerCase`. -/
def jsToLower (s : String) : String :=
  String.mk (s.data.map Char.toLower)

/-- A JavaScript number produced by `Number.parseFloat`: either a finite value
(modelled exactly as a rational) or one of the non-finite values. -/
inductive JsNum where
  | finite (q : ℚ)
  | nan
  | posInf
  | negInf
deriving DecidableEq

/-- `Number.isFinite`. -/
def JsNum.isFinite : JsNum → Bool
  | .finite _ => true
  | _ => false

def natOfDigits (cs : List Char) : ℕ :=
  cs.foldl (fun a c => a * 10 + (c.toNat - 48)) 0

/-- The optional exponent part of a `StrDecimalLiteral` (`e`/`E`, optional
sign, digits); an exponent marker without digits contributes exponent 0,
matching `parseFloat`'s longest-valid-prefix rule. -/
def parseExpPart (cs : List Char) : Int :=
  match cs with
  | 'e' :: rest | 'E' :: rest =>
    match rest with
    | '+' :: ds => (natOfDigits (ds.takeWhile isAsciiDigit) : Int)
    | '-' :: ds => -(natOfDigits (ds.takeWhile isAsciiDigit) : Int)
    | ds => (natOfDigits (ds.takeWhile isAsciiDigit) : Int)
  | _ => 0

/-- `Number.parseFloat` after the leading-whitespace skip: optional sign, then
`Infinity` or a decimal literal (integer part, optional fraction, optional
exponent); no valid prefix yields `NaN`. -/
def jsParseFloatCore (cs : List Char) : JsNum :=
  let signed : Bool × List Char :=
    match cs with
    | '-' :: r => (true, r)
    | '+' :: r => (false, r)
    | r => (false, r)
  let neg := signed.1
  let rest := signed.2
  if "Infinity".data.isPrefixOf rest then
    if neg then .negInf else .posInf
  else
    let ip := rest.takeWhile isAsciiDigit
    let r1 := rest.dropWhile isAsciiDigit
    let fpr : List Char × List Char :=
      match r1 with
      | '.' :: r => (r.takeWhile isAsciiDigit, r.dropWhile isAsciiDigit)
      | _ => ([], r1)
    let fp := fpr.1
    if ip.isEmpty && fp.isEmpty then .nan
    else
      let mantissa : ℚ := (natOfDigits ip : ℚ) + (natOfDigits fp : ℚ) / (10 : ℚ) ^ fp.length
      let v := mantissa * (10 : ℚ) ^ parseExpPart fpr.2
      .finite (if neg then -v else v)

/-- `Number.parseFloat` on a string. -/
def jsParseFloat (s : String) : JsNum :=
  jsParseFloatCore (s.data.dropWhile jsIsWs)

/-- `Number.parseFloat(x.toFixed(2))`: round to two decimal places, ties away
from the smaller representative (ECMA `toFixed` picks the larger candidate). -/
def round2 (q : ℚ) : ℚ :=
  (⌊q * 100 + 1 / 2⌋ : ℚ) / 100

/-- The `FRACTIONS` table of src/utils.ts. -/
def FRACTIONS : List (String × ℚ) :=
  [("1/2", 0.5), ("1/3", 0.333), ("2/3", 0.666),
   ("1/4", 0.25), ("3/4", 0.75), ("1/8", 0.125)]

/-- The `KNOWN_UNITS` list of src/utils.ts (also the membership test
`KNOWN_UNIT_SET.has`). -/
def KNOWN_UNITS : List String :=
  ["g", "kg", "mg", "oz", "lb", "lbs", "ml", "l", "cup", "cups", "tsp",
   "tbsp", "clove", "cloves", "slice", "slices", "piece", "pieces",
   "can", "cans", "packet", "packets", "bunch", "bunches"]

structure ParsedIngredient where
  raw : String
  quantity : Option ℚ
  unit : Option String
  item : String
deriving DecidableEq, Repr

/-- Helper for `jsSplitOnChar`. -/
def splitOnCharAux (sep : Char) : List Char → List Char → List (List Char)
  | [], acc => [acc.reverse]
  | c :: cs, acc =>
    if c == sep then acc.reverse :: splitOnCharAux sep cs []
    else splitOnCharAux sep cs (c :: acc)

/-- `s.split(sep)` for a single-character separator string. -/
def jsSplitOnChar (sep : Char) (s : String) : List String :=
  (splitOnCharAux sep s.data []).map String.mk

/-- `evaluateFraction` of src/utils.ts: split on `/`; a missing denominator is
`undefined`, whose `parseFloat` is `NaN`; a non-finite operand or zero
denominator yields `null`. -/
def evaluateFraction (expression : String) : Option ℚ :=
  let parts := jsSplitOnChar '/' expression
  let num := jsParseFloat (parts.headD "")
  let den := match parts[1]? with
    | some s => jsParseFloat s
    | none => JsNum.nan
  match num, den with
  | .finite n, .finite d => if d = 0 then none else some (n / d)
  | _, _ => none

/-- `first.replace(/[()]/g, '')`. -/
def stripParens (s : String) : String :=
  String.mk (s.data.filter (fun c => c != '(' && c != ')'))

/-- Regex `/^\d+$/`. -/
def reAllDigits (s : String) : Bool :=
  !s.data.isEmpty && s.data.all isAsciiDigit

/-- Regex `/^\d+[./]\d+$/`. -/
def reIntSepInt (s : String) : Bool :=
  match s.data.dropWhile isAsciiDigit with
  | c :: rest =>
    (c == '.' || c == '/') && !(s.data.takeWhile isAsciiDigit).isEmpty &&
      !rest.isEmpty && rest.all isAsciiDigit
  | [] => false

/-- Regex `/^\d+\.\d+$/`. -/
def reDecimal (s : String) : Bool :=
  match s.data.dropWhile isAsciiDigit with
  | c :: rest =>
    c == '.' && !(s.data.takeWhile isAsciiDigit).isEmpty &&
      !rest.isEmpty && rest.all isAsciiDigit
  | [] => false

/-- The finite value of a `parseFloat` result assigned to a
`number | null` slot (the surrounding regex guards keep the non-finite cases
unreachable in `parseIngredientDetails`). -/
def JsNum.toOptionQ : JsNum → Option ℚ
  | .finite q => some q
  | _ => none

/-- The quantity/consumed-token step of `parseIngredientDetails`, applied to
the first whitespace token: returns the parsed quantity and `startIndex`. -/
def quantityStep (first : String) : Option ℚ × Nat :=
  let cleanFirst := stripParens first
  if reAllDigits cleanFirst then
    ((jsParseFloat cleanFirst).toOptionQ, 1)
  else if reIntSepInt cleanFirst then
    (match (FRACTIONS.find? (fun p => p.1 == cleanFirst)).map Prod.snd with
     | some v => some v
     | none => evaluateFraction cleanFirst, 1)
  else if reDecimal cleanFirst then
    ((jsParseFloat cleanFirst).toOptionQ, 1)
  else
    (none, 0)

/-- The unit-and-item step of `parseIngredientDetails`: inspect
`parts[startIndex]` for a known unit, then join the remaining tokens (falling
back to the full trimmed line when nothing remains). -/
def unitItemStep (trimmed : String) (parts : List String) (quantity : Option ℚ)
    (startIndex : Nat) : ParsedIngredient :=
  let unitStep : Option String × Nat :=
    match parts[startIndex]? with
    | some t =>
      let unitCandidate := jsToLower t
      if unitCandidate ≠ "" ∧ KNOWN_UNITS.contains unitCandidate then
        (some unitCandidate, startIndex + 1)
      else (none, startIndex)
    | none => (none, startIndex)
  let item0 := String.intercalate " " (parts.drop unitStep.2)
  let item := if item0 = "" then trimmed else item0
  ⟨trimmed, quantity, unitStep.1, jsToLower item⟩

/-- `parseIngredientDetails` of src/utils.ts. -/
def parseIngredientDetails (raw : String) : ParsedIngredient :=
  let trimmed := jsTrim raw
  let parts := jsSplitWs trimmed
  let qs : Option ℚ × Nat :=
    match parts with
    | [] => (none, 0)
    | first :: _ => quantityStep first
  unitItemStep trimmed parts qs.1 qs.2

/-- `sub` occurs as a contiguous substring of the character list (helper for
`String.prototype.includes`). -/
def listHasInfixAux (sub : List Char) : List Char → Bool
  | [] => sub.isEmpty
  | c :: cs => sub.isPrefixOf (c :: cs) || listHasInfixAux sub cs

/-- `s.includes(sub)`. -/
def jsIncludes (s sub : String) : Bool :=
  listHasInfixAux sub.data s.data

inductive MealType where
  | breakfast
  | lunch
  | dinner
  | snack
deriving DecidableEq, Repr

/-- `MEAL_TYPES` of src/utils.ts (also the iteration order of every
`MEAL_TYPES.forEach`). -/
def MEAL_TYPES : List MealType :=
  [.breakfast, .lunch, .dinner, .snack]

def mealTypeToString : MealType → String
  | .breakfast => "breakfast"
  | .lunch => "lunch"
  | .dinner => "dinner"
  | .snack => "snack"

/-- `normalizeMealTypeField`: keyword classification of a free-text meal
category, rules evaluated top to bottom, first match winning. -/
def normalizeMealTypeField (raw : Option String) : Option MealType :=
  match raw with
  | none => none
  | some raw =>
    if raw = "" then none
    else
      let value := jsToLower (jsTrim raw)
      if value = "" then none
      else if value = "breakfast" || jsIncludes value "breakfast" then some .breakfast
      else if value = "snack" || jsIncludes value "snack" then some .snack
      else if jsIncludes value "dessert" || jsIncludes value "sweet" ||
          jsIncludes value "treat" then some .snack
      else if value = "lunch" || (jsIncludes value "lunch" && !jsIncludes value "dinner") then
        some .lunch
      else if jsIncludes value "dinner" || jsIncludes value "supper" then some .dinner
      else none

/-- A JavaScript runtime value as seen by the import validator (`unknown`). -/
inductive JSValue where
  | str (s : String)
  | num (n : JsNum)
  | boolV (b : Bool)
  | nullV
  | undef
  | arr (elems : List JSValue)
  | obj (fields : List (String × JSValue))

/-- `normalizeServings`: reject non-finite or non-positive numbers, trim and
parse strings, reject everything else; round accepted values to 2 decimals. -/
def normalizeServings (raw : JSValue) : Option ℚ :=
  match raw with
  | .num n =>
    match n with
    | .finite q => if q ≤ 0 then none else some (round2 q)
    | _ => none
  | .str s =>
    let trimmed := jsTrim s
    if trimmed = "" then none
    else
      match jsParseFloat trimmed with
      | .finite q => if q ≤ 0 then none else some (round2 q)
      | _ => none
  | _ => none

/-- `normalizeFieldKey`: lower-case, then remove every whitespace, underscore
and hyphen character (`replace(/[\s_-]+/g, '')`). -/
def normalizeFieldKey (key : String) : String :=
  String.mk ((jsToLower key).data.filter (fun c => !(jsIsWs c || c == '_' || c == '-')))

/-- First-binding-wins association lookup, mirroring `Map.get` over the maps
built below. -/
def mapGet {α : Type} (m : List (String × α)) (k : String) : Option α :=
  (m.find? (fun p => p.1 == k)).map Prod.snd

/-- `Map.set`: update the value in place if the key is present (keeping its
position), else append the new binding. -/
def mapSet {α : Type} (m : List (String × α)) (k : String) (v : α) : List (String × α) :=
  if (m.find? (fun p => p.1 == k)).isSome then
    m.map (fun p => if p.1 == k then (k, v) else p)
  else m ++ [(k, v)]

/-- `createFlexibleFieldLookup`: fold the raw record's entries into a map
keyed by normalized field name, first occurrence winning; empty keys are
skipped. -/
def createFlexibleFieldLookup (source : List (String × JSValue)) :
    List (String × JSValue) :=
  source.foldl (fun lookup kv =>
    if kv.1 = "" then lookup
    else
      let normalized := normalizeFieldKey kv.1
      if (lookup.find? (fun p => p.1 == normalized)).isSome then lookup
      else lookup ++ [(normalized, kv.2)]) []

/-- `pickStringField`: first candidate key whose looked-up value is a string
with non-empty trim. -/
def pickStringField (lookup : List (String × JSValue)) (keys : List String) : Option String :=
  match keys with
  | [] => none
  | k :: rest =>
    match mapGet lookup (normalizeFieldKey k) with
    | some (.str v) =>
      let trimmed := jsTrim v
      if trimmed ≠ "" then some trimmed else pickStringField lookup rest
    | _ => pickStringField lookup rest

/-- `segment.replace(/^[\-•*]\s*/, '')`: strip one leading bullet/dash
marker and the whitespace run after it. -/
def stripBulletMarker (s : String) : String :=
  match s.data with
  | c :: rest =>
    if c == '-' || c == '•' || c == '*' then String.mk (rest.dropWhile jsIsWs) else s
  | [] => s

/-- Split on the regex `/\r?\n|[,;•]/` (a lone carriage return is not a
separator). -/
def splitIngredientSegmentsAux : List Char → List Char → List (List Char)
  | [], acc => [acc.reverse]
  | '\r' :: '\n' :: cs, acc => acc.reverse :: splitIngredientSegmentsAux cs []
  | c :: cs, acc =>
    if c == '\n' || c == ',' || c == ';' || c == '•' then
      acc.reverse :: splitIngredientSegmentsAux cs []
    else splitIngredientSegmentsAux cs (c :: acc)

/-- `normalizeImportedIngredients`: arrays keep trimmed string elements,
strings are split on newlines/commas/semicolons/bullets (falling back to the
whole trimmed string when the split yields nothing usable); other values give
an empty list. -/
def normalizeImportedIngredients (raw : JSValue) : List String :=
  match raw with
  | .arr items =>
    (items.map (fun item => match item with | .str s => jsTrim s | _ => "")).filter
      (fun s => s ≠ "")
  | .str s =>
    let trimmed := jsTrim s
    if trimmed = "" then []
    else
      let candidates :=
        ((splitIngredientSegmentsAux trimmed.data []).map
          (fun seg => jsTrim (stripBulletMarker (String.mk seg)))).filter (fun s => s ≠ "")
      if candidates.isEmpty then [trimmed] else candidates
  | _ => []

structure ImportedRecipe where
  name : String
  prep_time : String
  ingredients : List String
  meal : MealType
  servings : ℚ
  instructions : String
deriving DecidableEq, Repr

/-- One candidate record of `validateImportedRecipes`: non-objects are
dropped; otherwise the canonical fields are resolved through the flexible
lookup and the record is kept only when every required field resolves. -/
def validateOneRecipe (candidate : JSValue) : Option ImportedRecipe :=
  match candidate with
  | .obj source =>
    let lookup := createFlexibleFieldLookup source
    let name := pickStringField lookup ["name"]
    let prepTime := pickStringField lookup ["prep_time", "prep time", "preptime"]
    let instructions :=
      pickStringField lookup ["instructions", "instruction", "directions", "method"]
    let meal := normalizeMealTypeField
      (pickStringField lookup ["meal", "meal type", "meal_type", "course", "category"])
    let ingredients :=
      normalizeImportedIngredients ((mapGet lookup (normalizeFieldKey "ingredients")).getD .undef)
    let servings := normalizeServings ((mapGet lookup (normalizeFieldKey "servings")).getD .undef)
    match name, prepTime, instructions, meal, servings with
    | some name, some prepTime, some instructions, some meal, some servings =>
      if ingredients.isEmpty then none
      else some ⟨name, prepTime, ingredients, meal, servings, instructions⟩
    | _, _, _, _, _ => none
  | _ => none

/-- `validateImportedRecipes` over the `recipes` array of the payload. -/
def validateImportedRecipes (recipes : List JSValue) : List ImportedRecipe :=
  recipes.filterMap validateOneRecipe

structure Recipe where
  id : String
  name : String
  prepTime : String
  ingredients : List String
  meal : MealType
  servings : ℚ
  instructions : String
deriving DecidableEq, Repr

/-- The export payload entry built by `handleExportRecipes` for one recipe:
`{ name, prep_time, meal, servings, ingredients, instructions }`. -/
def exportRecipePayload (recipe : Recipe) : JSValue :=
  .obj [("name", .str recipe.name),
        ("prep_time", .str recipe.prepTime),
        ("meal", .str (mealTypeToString recipe.meal)),
        ("servings", .num (.finite recipe.servings)),
        ("ingredients", .arr (recipe.ingredients.map JSValue.str)),
        ("instructions", .str recipe.instructions)]

/-- The `recipes` array of the export payload. -/
def exportRecipesPayload (recipes : List Recipe) : List JSValue :=
  recipes.map exportRecipePayload

/-- A persisted recipe viewed as its import-shaped projection (drop `id`). -/
def toImportedRecipe (r : Recipe) : ImportedRecipe :=
  ⟨r.name, r.prepTime, r.ingredients, r.meal, r.servings, r.instructions⟩

/-- The `seen` map of `dedupeRecipes` before the incoming batch is processed:
`new Map(existing.map(r => [r.name.toLowerCase(), r]))`, indexed here by
position into the merged array (a duplicate key keeps the later entry, as the
`Map` constructor does). -/
def dedupeSeed (existing : List Recipe) : List (String × Nat) :=
  existing.enum.foldl (fun m p => mapSet m (jsToLower p.2.name) p.1) []

/-- One iteration of the `incoming.forEach` of `dedupeRecipes`.  When the key
is present, `Object.assign(existingRecipe, recipe)` copies every declared
field of the incoming recipe onto the aliased object in `merged`, so the slot
value becomes the incoming record; otherwise the record is appended and
registered. -/
def dedupeStep (st : List Recipe × List (String × Nat)) (recipe : Recipe) :
    List Recipe × List (String × Nat) :=
  let key := jsToLower recipe.name
  match mapGet st.2 key with
  | some i => (st.1.set i recipe, st.2)
  | none => (st.1 ++ [recipe], mapSet st.2 key st.1.length)

/-- `dedupeRecipes` of src/utils.ts. -/
def dedupeRecipes (existing incoming : List Recipe) : List Recipe :=
  (incoming.foldl dedupeStep (existing, dedupeSeed existing)).1

/-- Days since 1970-01-01 of a civil date (Howard Hinnant's `days_from_civil`,
with C-style truncating division). -/
def daysFromCivil (y m d : Int) : Int :=
  let y := if m ≤ 2 then y - 1 else y
  let era := (if 0 ≤ y then y else y - 399).tdiv 400
  let yoe := y - era * 400
  let doy := (153 * (m + (if 2 < m then -3 else 9)) + 2).tdiv 5 + d - 1
  let doe := yoe * 365 + yoe.tdiv 4 - yoe.tdiv 100 + doy
  era * 146097 + doe - 719468

/-- Civil date of a number of days since 1970-01-01 (`civil_from_days`). -/
def civilFromDays (z : Int) : Int × Int × Int :=
  let z := z + 719468
  let era := (if 0 ≤ z then z else z - 146096).tdiv 146097
  let doe := z - era * 146097
  let yoe := (doe - doe.tdiv 1460 + doe.tdiv 36524 - doe.tdiv 146096).tdiv 365
  let y := yoe + era * 400
  let doy := doe - (365 * yoe + yoe.tdiv 4 - yoe.tdiv 100)
  let mp := (5 * doy + 2).tdiv 153
  let d := doy - (153 * mp + 2).tdiv 5 + 1
  let m := mp + (if mp < 10 then 3 else -9)
  (if m ≤ 2 then y + 1 else y, m, d)

def isLeapYear (y : Int) : Bool :=
  (y % 4 == 0 && y % 100 != 0) || y % 400 == 0

def daysInMonth (y m : Int) : Int :=
  if m = 2 then (if isLeapYear y then 29 else 28)
  else if m = 4 ∨ m = 6 ∨ m = 9 ∨ m = 11 then 30
  else 31

/-- Model of `new Date(s + 'T00:00:00')` at day granularity: a strict
`YYYY-MM-DD` string with an in-range month and day gives that civil day,
anything else is an Invalid Date (`NaN`). -/
def jsDateAtMidnight (s : String) : Option Int :=
  match s.data with
  | [y1, y2, y3, y4, '-', m1, m2, '-', d1, d2] =>
    if [y1, y2, y3, y4, m1, m2, d1, d2].all isAsciiDigit then
      let y : Int := natOfDigits [y1, y2, y3, y4]
      let m : Int := natOfDigits [m1, m2]
      let d : Int := natOfDigits [d1, d2]
      if 1 ≤ m ∧ m ≤ 12 ∧ 1 ≤ d ∧ d ≤ daysInMonth y m then some (daysFromCivil y m d)
      else none
    else none
  | _ => none

/-- Left-pad a natural number with zeros. -/
def padNat (width : ℕ) (n : ℕ) : String :=
  let s := toString n
  String.mk (List.replicate (width - s.length) '0') ++ s

/-- `toDateInputValue` applied to (local) midnight of a civil day: the
timezone compensation nets out to formatting the same civil day as
`YYYY-MM-DD`. -/
def toDateInputValue (day : Int) : String :=
  let c := civilFromDays day
  padNat 4 c.1.toNat ++ "-" ++ padNat 2 c.2.1.toNat ++ "-" ++ padNat 2 c.2.2.toNat

/-- `dateRangeInclusive` of src/utils.ts (the `end` parameter is written
`stop` because `end` is a Lean keyword): empty, unparseable or inverted
bounds give the empty list, otherwise each day from start to end inclusive
is formatted back to a date key. -/
def dateRangeInclusive (start stop : String) : List String :=
  if start = "" ∨ stop = "" then []
  else
    match jsDateAtMidnight start, jsDateAtMidnight stop with
    | some startDate, some endDate =>
      if startDate > endDate then []
      else (List.range (endDate - startDate + 1).toNat).map
        (fun i => toDateInputValue (startDate + i))
    | _, _ => []

/-- `DayPlan`: a slot per meal type holding a recipe id or null. -/
def DayPlan : Type := MealType → Option String

/-- `MealPlan`: date key to day plan. -/
def MealPlan : Type := String → Option DayPlan

structure ShoppingListItem where
  ingredient : String
  quantity : ℚ
  unit : Option String
deriving DecidableEq, Repr

structure DayItinerary where
  date : String
  meals : List (MealType × Recipe)
deriving DecidableEq, Repr

structure PlanOutputs where
  shoppingList : List ShoppingListItem
  itinerary : List DayItinerary
  recipes : List Recipe
  plannedMeals : ℕ
deriving DecidableEq, Repr

/-- `new Map(recipes.map(r => [r.id, r])).get id`: on duplicate ids the later
entry wins. -/
def recipeById (recipes : List Recipe) (id : String) : Option Recipe :=
  recipes.reverse.find? (fun r => r.id == id)

/-- The `(meal, recipe)` pairs resolved for one date inside the
`dates.forEach` of `buildPlanOutputs`, in `MEAL_TYPES` order: falsy slot
values and stale recipe ids are skipped. -/
def resolvedMealsForDay (mealPlan : MealPlan) (recipes : List Recipe) (date : String) :
    List (MealType × Recipe) :=
  match mealPlan date with
  | none => []
  | some day =>
    MEAL_TYPES.filterMap (fun meal =>
      match day meal with
      | none => none
      | some recipeId =>
        if recipeId = "" then none
        else (recipeById recipes recipeId).map (fun r => (meal, r)))

def mealIdx (m : MealType) : ℕ :=
  MEAL_TYPES.indexOf m

/-- Stable insertion into a sorted list: the new element goes before the
first element it compares `le` to, so earlier elements stay ahead of later
tied ones. -/
def insertIntoSorted {α : Type} (le : α → α → Bool) (a : α) : List α → List α
  | [] => [a]
  | b :: bs => if le a b then a :: b :: bs else b :: insertIntoSorted le a bs

/-- Model of JavaScript's stable `Array.prototype.sort` with a comparator: a
stable sort (for a consistent comparator any stable sort produces the same
list). -/
def insertionSort {α : Type} (le : α → α → Bool) : List α → List α
  | [] => []
  | a :: as => insertIntoSorted le a (insertionSort le as)

theorem insertIntoSorted_perm {α : Type} (le : α → α → Bool) (a : α) (l : List α) :
    (insertIntoSorted le a l).Perm (a :: l) := by
  induction l with
  | nil => exact List.Perm.refl _
  | cons b bs ih =>
    unfold insertIntoSorted
    by_cases h : le a b
    · rw [if_pos h]
    · rw [if_neg h]
      exact ((ih.cons b).trans (List.Perm.swap a b bs))

theorem insertionSort_perm {α : Type} (le : α → α → Bool) (l : List α) :
    (insertionSort le l).Perm l := by
  induction l with
  | nil => exact List.Perm.refl _
  | cons a as ih =>
    unfold insertionSort
    exact (insertIntoSorted_perm le a (insertionSort le as)).trans (ih.cons a)

/-- The itinerary component: one entry per date with at least one resolved
meal, the meals sorted by meal-type index. -/
def buildItinerary (mealPlan : MealPlan) (recipes : List Recipe) (dates : List String) :
    List DayItinerary :=
  dates.filterMap (fun date =>
    let mealsForDay := resolvedMealsForDay mealPlan recipes date
    if mealsForDay.isEmpty then none
    else some ⟨date, insertionSort (fun a b => decide (mealIdx a.1 ≤ mealIdx b.1)) mealsForDay⟩)

/-- `plannedMeals`: one increment per resolved slot. -/
def plannedMealsCount (mealPlan : MealPlan) (recipes : List Recipe) (dates : List String) : ℕ :=
  (dates.map (fun date => (resolvedMealsForDay mealPlan recipes date).length)).sum

/-- The `usedRecipes` map: id to recipe in first-use order. -/
def usedRecipesMap (mealPlan : MealPlan) (recipes : List Recipe) (dates : List String) :
    List (String × Recipe) :=
  dates.foldl (fun m date =>
    (resolvedMealsForDay mealPlan recipes date).foldl (fun m p => mapSet m p.2.id p.2) m) []

/-- All ingredient lines processed by the aggregation, in processing order. -/
def planIngredients (mealPlan : MealPlan) (recipes : List Recipe) (dates : List String) :
    List String :=
  dates.flatMap (fun date =>
    (resolvedMealsForDay mealPlan recipes date).flatMap (fun p => p.2.ingredients))

/-- The string key of the `shoppingMap`. -/
def shoppingKeyStr (p : ParsedIngredient) : String :=
  p.item ++ "__" ++ p.unit.getD "each"

def isWordChar (c : Char) : Bool :=
  isAsciiDigit c || c == '_' || (97 ≤ c.toNat && c.toNat ≤ 122) ||
    (65 ≤ c.toNat && c.toNat ≤ 90)

/-- Helper for `toTitleCase`: a word character is uppercased exactly when the
previous character is not a word character (regex `\b\w`). -/
def titleCaseAux : Bool → List Char → List Char
  | _, [] => []
  | prevWord, c :: cs =>
    (if isWordChar c && !prevWord then c.toUpper else c) :: titleCaseAux (isWordChar c) cs

/-- `toTitleCase`: `value.replace(/\b\w/g, c => c.toUpperCase())`. -/
def toTitleCase (value : String) : String :=
  String.mk (titleCaseAux false value.data)

/-- One ingredient accumulation into the `shoppingMap`: an existing row gets
its quantity bumped (re-rounded to 2 decimals), a fresh key appends a new row
with the title-cased item. -/
def insertShopping (m : List (String × ShoppingListItem)) (parsed : ParsedIngredient) :
    List (String × ShoppingListItem) :=
  let quantity := parsed.quantity.getD 1
  let key := shoppingKeyStr parsed
  if (m.find? (fun e => e.1 == key)).isSome then
    m.map (fun e =>
      if e.1 == key then (e.1, { e.2 with quantity := round2 (e.2.quantity + quantity) })
      else e)
  else
    m ++ [(key, ⟨toTitleCase parsed.item, round2 quantity, parsed.unit⟩)]

/-- The fully accumulated `shoppingMap`, as an insertion-ordered association
list. -/
def shoppingEntries (mealPlan : MealPlan) (recipes : List Recipe) (dates : List String) :
    List (String × ShoppingListItem) :=
  ((planIngredients mealPlan recipes dates).map parseIngredientDetails).foldl insertShopping []

/-- `buildPlanOutputs`.  The single `dates.forEach` of the source is
decomposed into the lockstep folds above (itinerary, planned-meal count, used
recipes, shopping accumulation), each traversing the same resolved slots in
the same order.  The comparator `cmp` abstracts
`String.prototype.localeCompare`, whose collation is chosen by the host
locale; both emitted lists are sorted with it (JavaScript's `sort` is stable,
modelled by `mergeSort`). -/
def buildPlanOutputs (cmp : String → String → Int) (mealPlan : MealPlan)
    (recipes : List Recipe) (start stop : String) : Option PlanOutputs :=
  let dates := dateRangeInclusive start stop
  if dates.isEmpty then none
  else
    let itinerary := buildItinerary mealPlan recipes dates
    if itinerary.isEmpty then none
    else
      some ⟨insertionSort (fun a b => decide (cmp a.ingredient b.ingredient ≤ 0))
              ((shoppingEntries mealPlan recipes dates).map Prod.snd),
            itinerary,
            insertionSort (fun a b => decide (cmp a.name b.name ≤ 0))
              ((usedRecipesMap mealPlan recipes dates).map Prod.snd),
            plannedMealsCount mealPlan recipes dates⟩

/-- Code-unit (UTF-32 scalar) three-way comparison of character lists. -/
def codeUnitCompareAux : List Char → List Char → Int
  | [], [] => 0
  | [], _ :: _ => -1
  | _ :: _, [] => 1
  | a :: as, b :: bs =>
    if a.toNat < b.toNat then -1
    else if b.toNat < a.toNat then 1
    else codeUnitCompareAux as bs

/-- Code-unit lexicographic comparator on strings, used to instantiate the
abstract `localeCompare` parameter in concrete computations. -/
def codeUnitCompare (a b : String) : Int :=
  codeUnitCompareAux a.data b.data

/-- The running total of the claimed shopping-list accumulation: add each
contribution in order, rounding to 2 decimals after every addition. -/
def accumRound (qs : List ℚ) : ℚ :=
  qs.foldl (fun acc q => round2 (acc + q)) 0

/-- The unit component of a shopping-list identity key. -/
def unitOrEach (u : Option String) : String :=
  u.getD "each"

/-- The identity key of an emitted shopping-list row: lower-cased item and
unit-or-`each`. -/
def rowIdentityKey (r : ShoppingListItem) : String × String :=
  (jsToLower r.ingredient, unitOrEach r.unit)

/-- The identity key of a parsed ingredient. -/
def parsedIdentityKey (p : ParsedIngredient) : String × String :=
  (p.item, unitOrEach p.unit)

/-- All quantities contributed to one identity key over the resolved date
range, in processing order, with `null` quantities replaced by 1. -/
def contributions (mealPlan : MealPlan) (recipes : List Recipe) (dates : List String)
    (k : String × String) : List ℚ :=
  ((planIngredients mealPlan recipes dates).map parseIngredientDetails).filterMap
    (fun p => if parsedIdentityKey p = k then some (p.quantity.getD 1) else none)

/-- The rejection condition of the servings-normalization claim, stated from
the spec's words: non-finite or non-positive numbers, strings that trim to
empty or parse to a non-finite or non-positive float, and every other type. -/
def servingsRejectedSpec : JSValue → Prop
  | .num (.finite q) => q ≤ 0
  | .num _ => True
  | .str s =>
    jsTrim s = "" ∨
      (match jsParseFloat (jsTrim s) with
       | .finite q => q ≤ 0
       | _ => True)
  | _ => True

theorem jsTrim_eq_empty_of_ws (s : String) (h : ∀ c ∈ s.data, jsIsWs c = true) :
    jsTrim s = "" := by
  unfold jsTrim
  have h1 : s.data.dropWhile jsIsWs = [] := by
    rw [List.dropWhile_eq_nil_iff]
    exact fun c hc => h c hc
  rw [h1]
  rfl

theorem parseIngredientDetails_eq_of_trim {s t : String} (h : jsTrim s = jsTrim t) :
    parseIngredientDetails s = parseIngredientDetails t := by
  unfold parseIngredientDetails
  rw [h]

/-- C10: a line consisting only of whitespace (including the empty line)
parses without error to the record with empty raw text, null quantity, no
unit and an empty item — the non-empty-item fallback does not apply to blank
lines. -/
theorem C10_whitespace_line_parses_empty (s : String) (h : ∀ c ∈ s.data, jsIsWs c = true) :
    parseIngredientDetails s = ⟨"", none, none, ""⟩ := by
  have he : jsTrim s = jsTrim "" := by rw [jsTrim_eq_empty_of_ws s h]; rfl
  rw [parseIngredientDetails_eq_of_trim he]
  decide

/-- Witness for C10 at a concrete whitespace-only line. -/
theorem C10_whitespace_line_parses_empty_witness :
    parseIngredientDetails " \t  " = ⟨"", none, none, ""⟩ :=
  C10_whitespace_line_parses_empty " \t  " (by decide)

/-- C1: the first token `2.5` matches the decimal pattern `digits.digits`,
yet the parsed quantity is `null` rather than `2.5` — the `/^\d+[./]\d+$/`
branch captures decimal tokens before the dedicated `/^\d+\.\d+$/` branch can
run, misses the fraction table, and `evaluateFraction` has no denominator to
split on.  The token is still consumed, so the remaining tokens form the
unit and item. -/
theorem C1_decimal_token_quantity_null :
    reDecimal (stripParens "2.5") = true ∧
    reIntSepInt (stripParens "2.5") = true ∧
    parseIngredientDetails "2.5 cups flour" =
      ⟨"2.5 cups flour", none, some "cups", "flour"⟩ := by decide

/-- C8: `normalizeServings` returns `null` exactly on non-finite or
non-positive numbers, strings trimming to empty or parsing to a non-finite or
non-positive float, and values of any other type; accepted inputs return the
parsed value rounded to 2 decimals.  In particular `-1`, `0`, `"abc"` and
`NaN` yield `null`. -/
theorem C8_normalizeServings_contract :
    (∀ v, normalizeServings v = none ↔ servingsRejectedSpec v) ∧
    (∀ q : ℚ, 0 < q → normalizeServings (.num (.finite q)) = some (round2 q)) ∧
    (∀ (s : String) (q : ℚ), jsParseFloat (jsTrim s) = .finite q → 0 < q →
      normalizeServings (.str s) = some (round2 q)) ∧
    normalizeServings (.num (.finite (-1))) = none ∧
    normalizeServings (.num (.finite 0)) = none ∧
    normalizeServings (.str "abc") = none ∧
    normalizeServings (.num .nan) = none := by
  refine ⟨?_, ?_, ?_, by decide, by decide, by decide, by decide⟩
  · intro v
    match v with
    | .num (.finite q) =>
      simp only [normalizeServings, servingsRejectedSpec]
      split <;> simp_all
    | .num .nan => simp [normalizeServings, servingsRejectedSpec]
    | .num .posInf => simp [normalizeServings, servingsRejectedSpec]
    | .num .negInf => simp [normalizeServings, servingsRejectedSpec]
    | .str s =>
      simp only [normalizeServings, servingsRejectedSpec]
      by_cases ht : jsTrim s = ""
      · simp [ht]
      · simp only [if_neg ht]
        cases hpf : jsParseFloat (jsTrim s) with
        | finite q => simp only [hpf]; split <;> simp_all
        | nan => simp [hpf, ht]
        | posInf => simp [hpf, ht]
        | negInf => simp [hpf, ht]
    | .boolV b => simp [normalizeServings, servingsRejectedSpec]
    | .nullV => simp [normalizeServings, servingsRejectedSpec]
    | .undef => simp [normalizeServings, servingsRejectedSpec]
    | .arr xs => simp [normalizeServings, servingsRejectedSpec]
    | .obj fs => simp [normalizeServings, servingsRejectedSpec]
  · intro q hq
    simp [normalizeServings, not_le.mpr hq]
  · intro s q hpf hq
    have ht : jsTrim s ≠ "" := by
      intro he
      rw [he] at hpf
      have hn : jsParseFloat "" = JsNum.nan := by decide
      rw [hn] at hpf
      exact JsNum.noConfusion hpf
    simp [normalizeServings, ht, hpf, not_le.mpr hq]

/-- Witness for C8 at concrete accepted inputs. -/
theorem C8_normalizeServings_contract_witness :
    normalizeServings (.num (.finite 4)) = some (round2 4) ∧
    normalizeServings (.str " 4.255 ") = some (round2 (4255/1000)) :=
  ⟨C8_normalizeServings_contract.2.1 4 (by decide),
   C8_normalizeServings_contract.2.2.1 " 4.255 " (4255/1000) (by decide) (by decide)⟩

/-- C5: `normalizeMealTypeField` evaluates its rules top to bottom with first
match winning: contains-breakfast, then contains-snack, then
dessert/sweet/treat, then lunch-without-dinner (or exact lunch), then
dinner/supper, else null; in particular `"Brunch/Breakfast Special"` is
breakfast, `"Lunch and Dinner combo"` is dinner and `"Chocolate Dessert"` is
snack. -/
theorem C5_classifier_precedence :
    (∀ raw : String,
      (jsIncludes (jsToLower (jsTrim raw)) "breakfast" = true →
        normalizeMealTypeField (some raw) = some .breakfast) ∧
      (jsIncludes (jsToLower (jsTrim raw)) "breakfast" = false →
        jsIncludes (jsToLower (jsTrim raw)) "snack" = true →
        normalizeMealTypeField (some raw) = some .snack) ∧
      (jsIncludes (jsToLower (jsTrim raw)) "breakfast" = false →
        jsIncludes (jsToLower (jsTrim raw)) "snack" = false →
        (jsIncludes (jsToLower (jsTrim raw)) "dessert" = true ∨
          jsIncludes (jsToLower (jsTrim raw)) "sweet" = true ∨
          jsIncludes (jsToLower (jsTrim raw)) "treat" = true) →
        normalizeMealTypeField (some raw) = some .snack) ∧
      (jsIncludes (jsToLower (jsTrim raw)) "breakfast" = false →
        jsIncludes (jsToLower (jsTrim raw)) "snack" = false →
        jsIncludes (jsToLower (jsTrim raw)) "dessert" = false →
        jsIncludes (jsToLower (jsTrim raw)) "sweet" = false →
        jsIncludes (jsToLower (jsTrim raw)) "treat" = false →
        jsIncludes (jsToLower (jsTrim raw)) "lunch" = true →
        jsIncludes (jsToLower (jsTrim raw)) "dinner" = false →
        normalizeMealTypeField (some raw) = some .lunch) ∧
      (jsIncludes (jsToLower (jsTrim raw)) "breakfast" = false →
        jsIncludes (jsToLower (jsTrim raw)) "snack" = false →
        jsIncludes (jsToLower (jsTrim raw)) "dessert" = false →
        jsIncludes (jsToLower (jsTrim raw)) "sweet" = false →
        jsIncludes (jsToLower (jsTrim raw)) "treat" = false →
        (jsIncludes (jsToLower (jsTrim raw)) "lunch" = false ∨
          jsIncludes (jsToLower (jsTrim raw)) "dinner" = true) →
        (jsIncludes (jsToLower (jsTrim raw)) "dinner" = true ∨
          jsIncludes (jsToLower (jsTrim raw)) "supper" = true) →
        normalizeMealTypeField (some raw) = some .dinner) ∧
      (jsIncludes (jsToLower (jsTrim raw)) "breakfast" = false →
        jsIncludes (jsToLower (jsTrim raw)) "snack" = false →
        jsIncludes (jsToLower (jsTrim raw)) "dessert" = false →
        jsIncludes (jsToLower (jsTrim raw)) "sweet" = false →
        jsIncludes (jsToLower (jsTrim raw)) "treat" = false →
        jsIncludes (jsToLower (jsTrim raw)) "lunch" = false →
        jsIncludes (jsToLower (jsTrim raw)) "dinner" = false →
        jsIncludes (jsToLower (jsTrim raw)) "supper" = false →
        normalizeMealTypeField (some raw) = none)) ∧
    normalizeMealTypeField (some "Brunch/Breakfast Special") = some .breakfast ∧
    normalizeMealTypeField (some "Lunch and Dinner combo") = some .dinner ∧
    normalizeMealTypeField (some "Chocolate Dessert") = some .snack := by
  refine ⟨?_, by decide, by decide, by decide⟩
  intro raw
  by_cases h0 : raw = ""
  · subst h0
    refine ⟨fun h1 => absurd h1 (by decide),
            fun _ h2 => absurd h2 (by decide),
            fun _ _ h3 => by rcases h3 with h | h | h <;> exact absurd h (by decide),
            fun _ _ _ _ _ h4 _ => absurd h4 (by decide),
            fun _ _ _ _ _ _ h5 => by rcases h5 with h | h <;> exact absurd h (by decide),
            fun _ _ _ _ _ _ _ _ => by decide⟩
  by_cases hv : jsToLower (jsTrim raw) = ""
  · refine ⟨fun h1 => absurd h1 (by rw [hv]; decide),
            fun _ h2 => absurd h2 (by rw [hv]; decide),
            fun _ _ h3 => by rw [hv] at h3; rcases h3 with h | h | h <;> exact absurd h (by decide),
            fun _ _ _ _ _ h4 _ => absurd h4 (by rw [hv]; decide),
            fun _ _ _ _ _ _ h5 => by rw [hv] at h5; rcases h5 with h | h <;> exact absurd h (by decide),
            fun _ _ _ _ _ _ _ _ => by simp [normalizeMealTypeField, h0, hv]⟩
  refine ⟨?_, ?_, ?_, ?_, ?_, ?_⟩
  · intro h1
    simp [normalizeMealTypeField, h0, hv, h1]
  · intro h1 h2
    have hne : jsToLower (jsTrim raw) ≠ "breakfast" := by
      intro he; rw [he] at h1; exact absurd h1 (by decide)
    simp [normalizeMealTypeField, h0, hv, h1, h2, hne]
  · intro h1 h2 h3
    have hne : jsToLower (jsTrim raw) ≠ "breakfast" := by
      intro he; rw [he] at h1; exact absurd h1 (by decide)
    have hns : jsToLower (jsTrim raw) ≠ "snack" := by
      intro he; rw [he] at h2; exact absurd h2 (by decide)
    rcases h3 with h | h | h <;> simp [normalizeMealTypeField, h0, hv, h1, h2, hne, hns, h]
  · intro h1 h2 hd hs ht h4 h4d
    have hne : jsToLower (jsTrim raw) ≠ "breakfast" := by
      intro he; rw [he] at h1; exact absurd h1 (by decide)
    have hns : jsToLower (jsTrim raw) ≠ "snack" := by
      intro he; rw [he] at h2; exact absurd h2 (by decide)
    simp [normalizeMealTypeField, h0, hv, h1, h2, hd, hs, ht, h4, h4d, hne, hns]
  · intro h1 h2 hd hs ht h4 h5
    have hne : jsToLower (jsTrim raw) ≠ "breakfast" := by
      intro he; rw [he] at h1; exact absurd h1 (by decide)
    have hns : jsToLower (jsTrim raw) ≠ "snack" := by
      intro he; rw [he] at h2; exact absurd h2 (by decide)
    have hnl : jsToLower (jsTrim raw) ≠ "lunch" := by
      intro he
      rw [he] at h4
      rcases h4 with h | h <;> exact absurd h (by decide)
    rcases h4 with hl | hdin
    · rcases h5 with h | h <;>
        simp [normalizeMealTypeField, h0, hv, h1, h2, hd, hs, ht, hl, hne, hns, hnl, h]
    · simp [normalizeMealTypeField, h0, hv, h1, h2, hd, hs, ht, hdin, hne, hns, hnl]
  · intro h1 h2 hd hs ht hl hdin hsup
    have hne : jsToLower (jsTrim raw) ≠ "breakfast" := by
      intro he; rw [he] at h1; exact absurd h1 (by decide)
    have hns : jsToLower (jsTrim raw) ≠ "snack" := by
      intro he; rw [he] at h2; exact absurd h2 (by decide)
    have hnl : jsToLower (jsTrim raw) ≠ "lunch" := by
      intro he; rw [he] at hl; exact absurd hl (by decide)
    simp [normalizeMealTypeField, h0, hv, h1, h2, hd, hs, ht, hl, hdin, hsup, hne, hns, hnl]

/-- Witness for C5 at concrete inputs discharging the rule hypotheses. -/
theorem C5_classifier_precedence_witness :
    normalizeMealTypeField (some "Sweet Pie") = some .snack ∧
    normalizeMealTypeField (some "weeknight special") = none :=
  ⟨(C5_classifier_precedence.1 "Sweet Pie").2.2.1 (by decide) (by decide)
      (Or.inr (Or.inl (by decide))),
   (C5_classifier_precedence.1 "weeknight special").2.2.2.2.2 (by decide) (by decide)
      (by decide) (by decide) (by decide) (by decide) (by decide) (by decide)⟩

theorem dateRange_nil_of_invalid (start stop : String)
    (h : start = "" ∨ stop = "" ∨ jsDateAtMidnight start = none ∨
      jsDateAtMidnight stop = none ∨
      (∃ a b, jsDateAtMidnight start = some a ∧ jsDateAtMidnight stop = some b ∧ b < a)) :
    dateRangeInclusive start stop = [] := by
  unfold dateRangeInclusive
  by_cases h0 : start = "" ∨ stop = ""
  · simp [h0]
  · simp only [if_neg h0]
    rcases h with h | h | h | h | ⟨a, b, ha, hb, hab⟩
    · exact absurd (Or.inl h) h0
    · exact absurd (Or.inr h) h0
    · cases hstop : jsDateAtMidnight stop <;> simp [h, hstop]
    · cases hstart : jsDateAtMidnight start <;> simp [h, hstart]
    · rw [ha, hb]
      simp [show a > b from hab]

/-- C9: an end date strictly before the start date, or an empty or
unparseable bound, resolves to an empty date sequence and the aggregation
returns `none` (no output) rather than raising or emitting an empty list. -/
theorem C9_invalid_or_inverted_range_no_output (cmp : String → String → Int)
    (mealPlan : MealPlan) (recipes : List Recipe) (start stop : String)
    (h : start = "" ∨ stop = "" ∨ jsDateAtMidnight start = none ∨
      jsDateAtMidnight stop = none ∨
      (∃ a b, jsDateAtMidnight start = some a ∧ jsDateAtMidnight stop = some b ∧ b < a)) :
    buildPlanOutputs cmp mealPlan recipes start stop = none := by
  unfold buildPlanOutputs
  rw [dateRange_nil_of_invalid start stop h]
  simp

/-- Witness for C9 at a concrete inverted range. -/
theorem C9_invalid_or_inverted_range_no_output_witness :
    buildPlanOutputs codeUnitCompare (fun _ => none) [] "2024-01-02" "2024-01-01" = none :=
  C9_invalid_or_inverted_range_no_output codeUnitCompare (fun _ => none) [] "2024-01-02"
    "2024-01-01"
    (Or.inr (Or.inr (Or.inr (Or.inr ⟨19724, 19723, by decide, by decide, by decide⟩))))

theorem takeWhile_append_of_all {α : Type} {p : α → Bool} {l1 l2 : List α}
    (h : ∀ x ∈ l1, p x = true) :
    (l1 ++ l2).takeWhile p = l1 ++ l2.takeWhile p := by
  induction l1 with
  | nil => simp
  | cons a as ih =>
    have h1 := h a (by simp)
    have h2 := ih (fun x hx => h x (by simp [hx]))
    simp [List.takeWhile_cons, h1, h2]

theorem dropWhile_append_of_all {α : Type} {p : α → Bool} {l1 l2 : List α}
    (h : ∀ x ∈ l1, p x = true) :
    (l1 ++ l2).dropWhile p = l2.dropWhile p := by
  induction l1 with
  | nil => simp
  | cons a as ih =>
    simp only [List.cons_append, List.dropWhile_cons, h a (by simp)]
    exact ih (fun x hx => h x (by simp [hx]))

theorem splitOnCharAux_no_sep {sep : Char} {l : List Char} (acc : List Char)
    (h : ∀ c ∈ l, ¬(c = sep)) :
    splitOnCharAux sep l acc = [acc.reverse ++ l] := by
  induction l generalizing acc with
  | nil => simp [splitOnCharAux]
  | cons c cs ih =>
    have hc : (c == sep) = false := by
      simpa using h c (by simp)
    have hstep : splitOnCharAux sep (c :: cs) acc = splitOnCharAux sep cs (c :: acc) := by
      simp [splitOnCharAux, hc]
    rw [hstep, ih (c :: acc) (fun x hx => h x (by simp [hx]))]
    simp

theorem splitOnCharAux_sep {sep : Char} {a b : List Char} (acc : List Char)
    (h : ∀ c ∈ a, ¬(c = sep)) :
    splitOnCharAux sep (a ++ sep :: b) acc =
      (acc.reverse ++ a) :: splitOnCharAux sep b [] := by
  induction a generalizing acc with
  | nil => simp [splitOnCharAux]
  | cons c cs ih =>
    have hc : (c == sep) = false := by
      simpa using h c (by simp)
    have hstep : splitOnCharAux sep ((c :: cs) ++ sep :: b) acc
        = splitOnCharAux sep (cs ++ sep :: b) (c :: acc) := by
      simp [splitOnCharAux, hc]
    rw [hstep, ih (c :: acc) (fun x hx => h x (by simp [hx]))]
    simp

theorem evaluateFraction_zero_or_nonfinite_den {s : String} {a b : List Char}
    (hs : s.data = a ++ '/' :: b)
    (ha : ∀ c ∈ a, ¬(c = '/')) (hb : ∀ c ∈ b, ¬(c = '/'))
    (hden : jsParseFloat (String.mk b) = .finite 0 ∨
      (jsParseFloat (String.mk b)).isFinite = false) :
    evaluateFraction s = none := by
  have hparts : jsSplitOnChar '/' s = [String.mk a, String.mk b] := by
    unfold jsSplitOnChar
    rw [hs, splitOnCharAux_sep [] ha, splitOnCharAux_no_sep [] hb]
    simp
  have hstep : evaluateFraction s =
      (match jsParseFloat (String.mk a), jsParseFloat (String.mk b) with
       | .finite n, .finite d => if d = 0 then none else some (n / d)
       | _, _ => none) := by
    unfold evaluateFraction
    rw [hparts]
    rfl
  rw [hstep]
  rcases hden with h0 | hnf
  · rw [h0]
    cases jsParseFloat (String.mk a) <;> simp
  · cases hpf : jsParseFloat (String.mk b) with
    | finite q => rw [hpf] at hnf; exact absurd hnf (by simp [JsNum.isFinite])
    | nan => cases jsParseFloat (String.mk a) <;> simp
    | posInf => cases jsParseFloat (String.mk a) <;> simp
    | negInf => cases jsParseFloat (String.mk a) <;> simp

theorem digit_ne_slash {c : Char} (h : isAsciiDigit c = true) : ¬(c = '/') := by
  intro he
  subst he
  simp [isAsciiDigit] at h

theorem reIntSepInt_of_shape {s : String} {a b : List Char}
    (hs : s.data = a ++ '/' :: b)
    (haN : a ≠ []) (haD : ∀ c ∈ a, isAsciiDigit c = true)
    (hbN : b ≠ []) (hbD : ∀ c ∈ b, isAsciiDigit c = true) :
    reIntSepInt s = true := by
  unfold reIntSepInt
  rw [hs, dropWhile_append_of_all haD, takeWhile_append_of_all haD]
  have hslash : isAsciiDigit '/' = false := by decide
  simp only [List.dropWhile_cons, hslash, Bool.false_eq_true, if_false,
    List.takeWhile_cons, List.append_nil]
  simp [haN, hbN, List.all_eq_true]
  exact hbD

theorem reAllDigits_of_shape {s : String} {a b : List Char}
    (hs : s.data = a ++ '/' :: b) :
    reAllDigits s = false := by
  unfold reAllDigits
  rw [hs]
  have h1 : (a ++ '/' :: b).all isAsciiDigit = false := by
    rw [Bool.eq_false_iff]
    rw [ne_eq, List.all_eq_true]
    intro h
    exact absurd (h '/' (by simp)) (by decide)
  simp [h1]

theorem quantityStep_fraction_null {first : String}
    (hall : reAllDigits (stripParens first) = false)
    (hre : reIntSepInt (stripParens first) = true)
    (htab : FRACTIONS.find? (fun p => p.1 == stripParens first) = none)
    (hev : evaluateFraction (stripParens first) = none) :
    quantityStep first = (none, 1) := by
  unfold quantityStep
  simp [hall, hre, htab, hev]

theorem unitItemStep_quantity (trimmed : String) (parts : List String) (q : Option ℚ)
    (i : Nat) : (unitItemStep trimmed parts q i).quantity = q := rfl

/-- C7: a first token of the form `digits/digits` whose denominator evaluates
to zero (or non-finite), and which is not a fraction-table literal, yields a
`null` quantity without raising; the token is still consumed and the rest of
the line is parsed normally (unit lookup and item join over the remaining
tokens). -/
theorem C7_zero_denominator_fraction (raw first : String) (rest : List String)
    (a b : List Char)
    (hsplit : jsSplitWs (jsTrim raw) = first :: rest)
    (hshape : (stripParens first).data = a ++ '/' :: b)
    (hA : a ≠ [] ∧ ∀ c ∈ a, isAsciiDigit c = true)
    (hB : b ≠ [] ∧ ∀ c ∈ b, isAsciiDigit c = true)
    (hzero : jsParseFloat (String.mk b) = .finite 0 ∨
      (jsParseFloat (String.mk b)).isFinite = false)
    (htab : FRACTIONS.find? (fun p => p.1 == stripParens first) = none) :
    parseIngredientDetails raw = unitItemStep (jsTrim raw) (first :: rest) none 1 ∧
    (parseIngredientDetails raw).quantity = none := by
  have hq : quantityStep first = (none, 1) :=
    quantityStep_fraction_null
      (reAllDigits_of_shape hshape)
      (reIntSepInt_of_shape hshape hA.1 hA.2 hB.1 hB.2)
      htab
      (evaluateFraction_zero_or_nonfinite_den hshape
        (fun c hc => digit_ne_slash (hA.2 c hc))
        (fun c hc => digit_ne_slash (hB.2 c hc)) hzero)
  have h1 : parseIngredientDetails raw = unitItemStep (jsTrim raw) (first :: rest) none 1 := by
    simp only [parseIngredientDetails, hsplit, hq]
  exact ⟨h1, by rw [h1, unitItemStep_quantity]⟩

/-- Witness for C7 at `"2/0 flour"`. -/
theorem C7_zero_denominator_fraction_witness :
    parseIngredientDetails "2/0 flour" = ⟨"2/0 flour", none, none, "flour"⟩ := by
  have h := C7_zero_denominator_fraction "2/0 flour" "2/0" ["flour"] ['2'] ['0']
    (by decide) (by decide) ⟨by decide, by decide⟩ ⟨by decide, by decide⟩
    (Or.inl (by decide)) (by decide)
  rw [h.1]
  decide

def c2Existing : Recipe :=
  ⟨"r-old", "Pasta", "10 min", ["flour"], .dinner, 2, "Cook."⟩

def c2Incoming : Recipe :=
  ⟨"r-new", "PASTA", "20 min", ["flour", "egg"], .lunch, 4, "Boil."⟩

/-- Counterexample to C2: merging an incoming recipe whose lower-cased name
matches an existing one replaces the whole record, `id` included —
`Object.assign` copies every declared field, so the pre-existing identifier
`r-old` is NOT preserved. -/
theorem C2_counterexample_id_not_preserved :
    dedupeRecipes [c2Existing] [c2Incoming] = [c2Incoming] ∧
    jsToLower c2Incoming.name = jsToLower c2Existing.name ∧
    c2Incoming.id ≠ c2Existing.id := by decide

theorem mapGet_cons {α : Type} (q : String × α) (m : List (String × α)) (k : String) :
    mapGet (q :: m) k = if q.1 = k then some q.2 else mapGet m k := by
  by_cases h : q.1 = k <;> simp [mapGet, List.find?_cons, h]

theorem mapSet_cons_ne {α : Type} (q : String × α) (m : List (String × α)) {k : String}
    (v : α) (hq : ¬(q.1 = k)) : mapSet (q :: m) k v = q :: mapSet m k v := by
  have hfq : (q.1 == k) = false := by simpa using hq
  unfold mapSet
  rw [List.find?_cons_of_neg _ (by simp [hfq])]
  by_cases h : (List.find? (fun p => p.1 == k) m).isSome = true <;> simp [h, hfq, hq]

theorem mapGet_map_update_ne {α : Type} {k k' : String} (hne : ¬(k' = k)) (v : α)
    (m : List (String × α)) :
    mapGet (m.map (fun p => if p.1 == k then (k, v) else p)) k' = mapGet m k' := by
  induction m with
  | nil => rfl
  | cons q m ih =>
    by_cases hq : q.1 = k
    · have h1 : (if (q.1 == k) = true then (k, v) else q) = (k, v) := by simp [hq]
      rw [List.map_cons, h1, mapGet_cons, mapGet_cons]
      have h2 : ¬((k, v).1 = k') := fun h => hne h.symm
      have h3 : ¬(q.1 = k') := by rw [hq]; exact fun h => hne h.symm
      rw [if_neg h2, if_neg h3, ih]
    · have h1 : (if (q.1 == k) = true then (k, v) else q) = q := by simp [hq]
      rw [List.map_cons, h1, mapGet_cons, mapGet_cons, ih]

theorem mapGet_mapSet {α : Type} (m : List (String × α)) (k k' : String) (v : α) :
    mapGet (mapSet m k v) k' = if k' = k then some v else mapGet m k' := by
  induction m with
  | nil =>
    have h0 : mapSet ([] : List (String × α)) k v = [(k, v)] := rfl
    rw [h0, mapGet_cons]
    by_cases h : k' = k
    · simp [h]
    · rw [if_neg (fun hh : (k, v).1 = k' => h hh.symm), if_neg h]
  | cons q m ih =>
    by_cases hq : q.1 = k
    · have hpos : (List.find? (fun p => p.1 == k) (q :: m)).isSome = true := by
        rw [List.find?_cons_of_pos _ (by simp [hq])]
        rfl
      unfold mapSet
      rw [if_pos hpos, List.map_cons]
      have h1 : (if (q.1 == k) = true then (k, v) else q) = (k, v) := by simp [hq]
      rw [h1, mapGet_cons]
      by_cases hk : k' = k
      · simp [hk]
      · have h2 : ¬((k, v).1 = k') := fun h => hk h.symm
        have h3 : ¬(q.1 = k') := by rw [hq]; exact fun h => hk h.symm
        rw [if_neg h2, if_neg hk, mapGet_map_update_ne hk v m, mapGet_cons, if_neg h3]
    · rw [mapSet_cons_ne q m v hq, mapGet_cons, mapGet_cons]
      by_cases hk : k' = k
      · have hq' : ¬(q.1 = k') := by rw [hk]; exact hq
        rw [if_neg hq', ih, if_pos hk, if_pos hk]
      · by_cases hq' : q.1 = k'
        · rw [if_pos hq', if_pos hq', if_neg hk]
        · rw [if_neg hq', if_neg hq', ih, if_neg hk]

theorem dedupeSeed_append (existing : List Recipe) (e : Recipe) :
    dedupeSeed (existing ++ [e]) =
      mapSet (dedupeSeed existing) (jsToLower e.name) existing.length := by
  unfold dedupeSeed
  rw [List.enum_append, List.foldl_append]
  rfl

theorem mapGet_dedupeSeed_of_not_mem (existing : List Recipe) (k : String)
    (h : ∀ e ∈ existing, ¬(jsToLower e.name = k)) :
    mapGet (dedupeSeed existing) k = none := by
  induction existing using List.reverseRecOn with
  | nil => rfl
  | append_singleton l a ih =>
    rw [dedupeSeed_append, mapGet_mapSet, if_neg (fun hk => h a (by simp) hk.symm)]
    exact ih (fun e he => h e (by simp [he]))

theorem mapGet_dedupeSeed_of_nodup (existing : List Recipe)
    (he : (existing.map (fun r => jsToLower r.name)).Nodup)
    (i : ℕ) (hlt : i < existing.length) :
    mapGet (dedupeSeed existing) (jsToLower existing[i].name) = some i := by
  induction existing using List.reverseRecOn with
  | nil => simp at hlt
  | append_singleton l a ih =>
    have he' : ((l.map (fun r => jsToLower r.name)) ++ [jsToLower a.name]).Nodup := by
      simpa using he
    have hnodupl := (List.nodup_append.mp he').1
    have hdisj := (List.nodup_append.mp he').2.2
    rw [dedupeSeed_append, mapGet_mapSet]
    rcases Nat.lt_or_ge i l.length with hi | hi
    · have hel : (l ++ [a])[i] = l[i] := List.getElem_append_left hi
      rw [hel]
      have hmem : jsToLower l[i].name ∈ l.map (fun r => jsToLower r.name) :=
        List.mem_map_of_mem _ (List.getElem_mem hi)
      have hne : ¬(jsToLower l[i].name = jsToLower a.name) :=
        fun hh => hdisj hmem (by simp [hh])
      rw [if_neg hne]
      exact ih hnodupl hi
    · have hlen : i < l.length + 1 := by simpa using hlt
      have hieq : i = l.length := by omega
      have hel : (l ++ [a])[i] = a := List.getElem_concat_length l a i hieq hlt
      rw [hel, if_pos rfl, hieq]

theorem dedupe_subst_set (existing : List Recipe)
    (he : (existing.map (fun r => jsToLower r.name)).Nodup)
    (P : List Recipe) (r : Recipe) (j : ℕ) (hj : j < existing.length)
    (hkey : jsToLower existing[j].name = jsToLower r.name)
    (hfresh : ∀ p ∈ P, ¬(jsToLower p.name = jsToLower r.name)) :
    (existing.map (fun e =>
        (P.find? (fun q => jsToLower q.name == jsToLower e.name)).getD e)).set j r =
      existing.map (fun e =>
        ((P ++ [r]).find? (fun q => jsToLower q.name == jsToLower e.name)).getD e) := by
  apply List.ext_getElem?
  intro n
  rw [List.getElem?_set, List.getElem?_map, List.getElem?_map]
  by_cases hn : j = n
  · subst hn
    rw [if_pos rfl, if_pos (by simpa using hj)]
    rw [List.getElem?_eq_getElem hj, Option.map_some']
    have hfP : P.find? (fun q => jsToLower q.name == jsToLower existing[j].name) = none := by
      rw [List.find?_eq_none]
      intro p hp
      simp only [beq_iff_eq]
      rw [hkey]
      exact hfresh p hp
    have hfr : (fun q => jsToLower q.name == jsToLower existing[j].name) r = true := by
      simp [hkey]
    simp [List.find?_append, hfP, List.find?_cons, hfr]
  · rw [if_neg hn]
    cases hne : existing[n]? with
    | none => rfl
    | some e =>
      rw [Option.map_some', Option.map_some']
      have hnlt : n < existing.length := by
        by_contra hge
        rw [List.getElem?_eq_none (by omega)] at hne
        exact Option.noConfusion hne
      have hee : existing[n] = e := by
        rw [List.getElem?_eq_getElem hnlt] at hne
        exact Option.some.inj hne
      have hfr : (fun q => jsToLower q.name == jsToLower e.name) r = false := by
        simp only [beq_eq_false_iff_ne, ne_eq]
        intro hh
        apply hn
        have hjm : j < (existing.map (fun q => jsToLower q.name)).length := by simpa using hj
        have hnm : n < (existing.map (fun q => jsToLower q.name)).length := by
          simpa using hnlt
        refine (@List.Nodup.getElem_inj_iff _ _ he j hjm n hnm).mp ?_
        rw [List.getElem_map, List.getElem_map, hkey, hee, hh]
      simp [List.find?_append, List.find?_cons, hfr]

theorem dedupe_subst_skip (existing : List Recipe) (P : List Recipe) (r : Recipe)
    (hex : ∀ e ∈ existing, ¬(jsToLower e.name = jsToLower r.name)) :
    existing.map (fun e =>
        ((P ++ [r]).find? (fun q => jsToLower q.name == jsToLower e.name)).getD e) =
      existing.map (fun e =>
        (P.find? (fun q => jsToLower q.name == jsToLower e.name)).getD e) := by
  apply List.map_congr_left
  intro e heM
  have hfr : (fun q => jsToLower q.name == jsToLower e.name) r = false := by
    simp only [beq_eq_false_iff_ne, ne_eq]
    intro hh
    exact hex e heM hh.symm
  simp [List.find?_append, List.find?_cons, hfr]

theorem dedupe_loop (existing : List Recipe)
    (he : (existing.map (fun r => jsToLower r.name)).Nodup) :
    ∀ (rest P : List Recipe),
      ((P ++ rest).map (fun r => jsToLower r.name)).Nodup →
      ∀ st : List Recipe × List (String × Nat),
      st.1 = existing.map (fun e =>
          (P.find? (fun q => jsToLower q.name == jsToLower e.name)).getD e) ++
        P.filter (fun q => !existing.any (fun e => jsToLower e.name == jsToLower q.name)) →
      (∀ i, (hlt : i < existing.length) →
        mapGet st.2 (jsToLower existing[i].name) = some i) →
      (∀ k, (∀ e ∈ existing, ¬(jsToLower e.name = k)) →
        (∀ q ∈ P, ¬(jsToLower q.name = k)) → mapGet st.2 k = none) →
      (rest.foldl dedupeStep st).1 =
        existing.map (fun e =>
          ((P ++ rest).find? (fun q => jsToLower q.name == jsToLower e.name)).getD e) ++
        (P ++ rest).filter
          (fun q => !existing.any (fun e => jsToLower e.name == jsToLower q.name)) := by
  intro rest
  induction rest with
  | nil =>
    intro P hnd st hm h1 h2
    simpa using hm
  | cons r rest ih =>
    intro P hnd st hm h1 h2
    have hkeyfresh : ∀ p ∈ P, ¬(jsToLower p.name = jsToLower r.name) := by
      intro p hp hkk
      have hsplit := List.nodup_append.mp
        (show ((P.map (fun q => jsToLower q.name)) ++
          ((r :: rest).map (fun q => jsToLower q.name))).Nodup by simpa using hnd)
      exact hsplit.2.2 (List.mem_map_of_mem _ hp) (by simp [hkk])
    rw [List.foldl_cons]
    by_cases hex : ∃ j, ∃ hj : j < existing.length,
        jsToLower existing[j].name = jsToLower r.name
    · obtain ⟨j, hj, hkey⟩ := hex
      have hget : mapGet st.2 (jsToLower r.name) = some j := by
        rw [← hkey]
        exact h1 j hj
      have hstep : dedupeStep st r = (st.1.set j r, st.2) := by
        simp only [dedupeStep, hget]
      have hnotnew :
          (!existing.any (fun e => jsToLower e.name == jsToLower r.name)) = false := by
        have hany : existing.any (fun e => jsToLower e.name == jsToLower r.name) = true := by
          rw [List.any_eq_true]
          exact ⟨existing[j], List.getElem_mem hj, by simp [hkey]⟩
        rw [hany]
        rfl
      have hm' : st.1.set j r = existing.map (fun e =>
            ((P ++ [r]).find? (fun q => jsToLower q.name == jsToLower e.name)).getD e) ++
          (P ++ [r]).filter
            (fun q => !existing.any (fun e => jsToLower e.name == jsToLower q.name)) := by
        rw [hm]
        have hjlen : j < (existing.map (fun e =>
            (P.find? (fun q => jsToLower q.name == jsToLower e.name)).getD e)).length := by
          simpa using hj
        rw [List.set_append, if_pos hjlen,
          dedupe_subst_set existing he P r j hj hkey hkeyfresh, List.filter_append]
        have hf1 : List.filter
            (fun q => !existing.any (fun e => jsToLower e.name == jsToLower q.name)) [r]
            = [] := by
          rw [show ([r] : List Recipe) = r :: [] from rfl, List.filter_cons, hnotnew]
          simp
        rw [hf1, List.append_nil]
      rw [hstep, show P ++ r :: rest = (P ++ [r]) ++ rest by simp]
      exact ih (P ++ [r]) (by simpa using hnd) (st.1.set j r, st.2) hm'
        (fun i hlt => h1 i hlt)
        (fun k hk1 hk2 => h2 k hk1 (fun q hq => hk2 q (List.mem_append_left _ hq)))
    · have hnoex : ∀ e ∈ existing, ¬(jsToLower e.name = jsToLower r.name) := by
        intro e heM hkk
        rcases List.mem_iff_getElem.mp heM with ⟨i, hi, hie⟩
        exact hex ⟨i, hi, by rw [hie, hkk]⟩
      have hnone : mapGet st.2 (jsToLower r.name) = none := h2 _ hnoex hkeyfresh
      have hstep : dedupeStep st r =
          (st.1 ++ [r], mapSet st.2 (jsToLower r.name) st.1.length) := by
        simp only [dedupeStep, hnone]
      have hany : existing.any (fun e => jsToLower e.name == jsToLower r.name) = false := by
        rw [List.any_eq_false]
        intro e heM
        simp only [beq_iff_eq]
        exact hnoex e heM
      have hisnew :
          (!existing.any (fun e => jsToLower e.name == jsToLower r.name)) = true := by
        rw [hany]
        rfl
      have hm' : st.1 ++ [r] = existing.map (fun e =>
            ((P ++ [r]).find? (fun q => jsToLower q.name == jsToLower e.name)).getD e) ++
          (P ++ [r]).filter
            (fun q => !existing.any (fun e => jsToLower e.name == jsToLower q.name)) := by
        rw [hm, dedupe_subst_skip existing P r hnoex, List.filter_append]
        have hf1 : List.filter
            (fun q => !existing.any (fun e => jsToLower e.name == jsToLower q.name)) [r]
            = [r] := by
          rw [show ([r] : List Recipe) = r :: [] from rfl, List.filter_cons, hisnew]
          simp
        rw [hf1, List.append_assoc]
      rw [hstep, show P ++ r :: rest = (P ++ [r]) ++ rest by simp]
      refine ih (P ++ [r]) (by simpa using hnd)
        (st.1 ++ [r], mapSet st.2 (jsToLower r.name) st.1.length) hm' ?_ ?_
      · intro i hlt
        rw [mapGet_mapSet,
          if_neg (fun hk => hnoex existing[i] (List.getElem_mem hlt) hk)]
        exact h1 i hlt
      · intro k hk1 hk2
        have hkr : ¬(k = jsToLower r.name) :=
          fun hk => hk2 r (List.mem_append_right _ (by simp)) hk.symm
        rw [mapGet_mapSet, if_neg hkr]
        exact h2 k hk1 (fun q hq => hk2 q (List.mem_append_left _ hq))

/-- C2 (amended): merging by case-insensitive name replaces a matching
existing record with the whole incoming record — every field including `id`
comes from the incoming recipe (`Object.assign` copies the `id` too, so the
pre-existing identifier is lost); existing records keep their positions and
relative order, and incoming records with fresh names are appended in input
order. -/
theorem C2_dedupe_overwrites_all_fields (existing incoming : List Recipe)
    (he : (existing.map (fun r => jsToLower r.name)).Nodup)
    (hi : (incoming.map (fun r => jsToLower r.name)).Nodup) :
    dedupeRecipes existing incoming =
      existing.map (fun e =>
        (incoming.find? (fun q => jsToLower q.name == jsToLower e.name)).getD e) ++
      incoming.filter
        (fun q => !existing.any (fun e => jsToLower e.name == jsToLower q.name)) := by
  unfold dedupeRecipes
  have h := dedupe_loop existing he incoming [] (by simpa using hi)
    (existing, dedupeSeed existing)
    (by simp)
    (fun i hlt => mapGet_dedupeSeed_of_nodup existing he i hlt)
    (fun k hk1 _ => mapGet_dedupeSeed_of_not_mem existing k hk1)
  simpa using h

/-- Witness for C2's amended theorem at concrete one-element collections. -/
theorem C2_dedupe_overwrites_all_fields_witness :
    dedupeRecipes [c2Existing] [c2Incoming] =
      [c2Existing].map (fun e =>
        ([c2Incoming].find? (fun q => jsToLower q.name == jsToLower e.name)).getD e) ++
      [c2Incoming].filter
        (fun q => !([c2Existing].any (fun e => jsToLower e.name == jsToLower q.name))) :=
  C2_dedupe_overwrites_all_fields [c2Existing] [c2Incoming] (by decide) (by decide)

def c6Recipe : Recipe :=
  ⟨"r-1", "Pasta", "10 min", [" flour"], .dinner, 2, "Cook."⟩

/-- Counterexample to C6: a recipe with non-empty ingredients and
instructions and valid positive servings whose round-trip is NOT identical to
the original — the import path trims each ingredient string, so the leading
space of `" flour"` is lost. -/
theorem C6_counterexample_untrimmed_ingredient :
    validateImportedRecipes (exportRecipesPayload [c6Recipe]) ≠
      [toImportedRecipe c6Recipe] ∧
    c6Recipe.ingredients ≠ [] ∧ c6Recipe.instructions ≠ "" ∧
    0 < c6Recipe.servings := by decide

theorem pickStringField_head_found (lookup : List (String × JSValue)) (k : String)
    (rest : List String) (v : String)
    (hget : mapGet lookup (normalizeFieldKey k) = some (.str v))
    (hv1 : jsTrim v = v) (hv2 : v ≠ "") :
    pickStringField lookup (k :: rest) = some v := by
  simp only [pickStringField, hget]
  simp [hv1, hv2]

theorem jsTrim_mealTypeToString (m : MealType) :
    jsTrim (mealTypeToString m) = mealTypeToString m := by
  cases m <;> decide

theorem mealTypeToString_ne_empty (m : MealType) : mealTypeToString m ≠ "" := by
  cases m <;> decide

theorem normalizeMealTypeField_mealToString (m : MealType) :
    normalizeMealTypeField (some (mealTypeToString m)) = some m := by
  cases m <;> decide

theorem normalizeImportedIngredients_arr (l : List String)
    (h : ∀ s ∈ l, jsTrim s = s ∧ s ≠ "") :
    normalizeImportedIngredients (.arr (l.map JSValue.str)) = l := by
  have hstep : normalizeImportedIngredients (.arr (l.map JSValue.str)) =
      ((l.map JSValue.str).map (fun item => match item with
        | JSValue.str s => jsTrim s
        | _ => "")).filter (fun s => decide (s ≠ "")) := rfl
  rw [hstep, List.map_map]
  have hfuse : ((fun item => match item with | JSValue.str s => jsTrim s | _ => "") ∘
      JSValue.str) = jsTrim := rfl
  rw [hfuse]
  have hmap : l.map jsTrim = l := by
    have h1 : l.map jsTrim = l.map id := List.map_congr_left (fun a ha => (h a ha).1)
    rw [h1, List.map_id]
  rw [hmap]
  rw [List.filter_eq_self.mpr (fun a ha => by simpa using (h a ha).2)]

theorem validateOne_export (r : Recipe)
    (hn1 : jsTrim r.name = r.name) (hn2 : r.name ≠ "")
    (hp1 : jsTrim r.prepTime = r.prepTime) (hp2 : r.prepTime ≠ "")
    (hq1 : jsTrim r.instructions = r.instructions) (hq2 : r.instructions ≠ "")
    (hg1 : r.ingredients ≠ []) (hg2 : ∀ s ∈ r.ingredients, jsTrim s = s ∧ s ≠ "")
    (hs1 : 0 < r.servings) (hs2 : round2 r.servings = r.servings) :
    validateOneRecipe (exportRecipePayload r) = some (toImportedRecipe r) := by
  have hlkp : createFlexibleFieldLookup
      [("name", JSValue.str r.name), ("prep_time", JSValue.str r.prepTime),
       ("meal", JSValue.str (mealTypeToString r.meal)),
       ("servings", JSValue.num (.finite r.servings)),
       ("ingredients", JSValue.arr (r.ingredients.map JSValue.str)),
       ("instructions", JSValue.str r.instructions)] =
      [("name", JSValue.str r.name), ("preptime", JSValue.str r.prepTime),
       ("meal", JSValue.str (mealTypeToString r.meal)),
       ("servings", JSValue.num (.finite r.servings)),
       ("ingredients", JSValue.arr (r.ingredients.map JSValue.str)),
       ("instructions", JSValue.str r.instructions)] := rfl
  simp only [exportRecipePayload, validateOneRecipe, hlkp]
  rw [pickStringField_head_found
      [("name", JSValue.str r.name), ("preptime", JSValue.str r.prepTime),
       ("meal", JSValue.str (mealTypeToString r.meal)),
       ("servings", JSValue.num (.finite r.servings)),
       ("ingredients", JSValue.arr (r.ingredients.map JSValue.str)),
       ("instructions", JSValue.str r.instructions)]
      "name" [] r.name rfl hn1 hn2]
  rw [pickStringField_head_found
      [("name", JSValue.str r.name), ("preptime", JSValue.str r.prepTime),
       ("meal", JSValue.str (mealTypeToString r.meal)),
       ("servings", JSValue.num (.finite r.servings)),
       ("ingredients", JSValue.arr (r.ingredients.map JSValue.str)),
       ("instructions", JSValue.str r.instructions)]
      "prep_time" ["prep time", "preptime"] r.prepTime rfl hp1 hp2]
  rw [pickStringField_head_found
      [("name", JSValue.str r.name), ("preptime", JSValue.str r.prepTime),
       ("meal", JSValue.str (mealTypeToString r.meal)),
       ("servings", JSValue.num (.finite r.servings)),
       ("ingredients", JSValue.arr (r.ingredients.map JSValue.str)),
       ("instructions", JSValue.str r.instructions)]
      "instructions" ["instruction", "directions", "method"] r.instructions rfl hq1 hq2]
  rw [pickStringField_head_found
      [("name", JSValue.str r.name), ("preptime", JSValue.str r.prepTime),
       ("meal", JSValue.str (mealTypeToString r.meal)),
       ("servings", JSValue.num (.finite r.servings)),
       ("ingredients", JSValue.arr (r.ingredients.map JSValue.str)),
       ("instructions", JSValue.str r.instructions)]
      "meal" ["meal type", "meal_type", "course", "category"] (mealTypeToString r.meal) rfl
      (jsTrim_mealTypeToString r.meal) (mealTypeToString_ne_empty r.meal)]
  rw [normalizeMealTypeField_mealToString r.meal]
  rw [show (mapGet
      [("name", JSValue.str r.name), ("preptime", JSValue.str r.prepTime),
       ("meal", JSValue.str (mealTypeToString r.meal)),
       ("servings", JSValue.num (.finite r.servings)),
       ("ingredients", JSValue.arr (r.ingredients.map JSValue.str)),
       ("instructions", JSValue.str r.instructions)]
      (normalizeFieldKey "ingredients")).getD .undef
      = JSValue.arr (r.ingredients.map JSValue.str) from rfl]
  rw [show (mapGet
      [("name", JSValue.str r.name), ("preptime", JSValue.str r.prepTime),
       ("meal", JSValue.str (mealTypeToString r.meal)),
       ("servings", JSValue.num (.finite r.servings)),
       ("ingredients", JSValue.arr (r.ingredients.map JSValue.str)),
       ("instructions", JSValue.str r.instructions)]
      (normalizeFieldKey "servings")).getD .undef
      = JSValue.num (.finite r.servings) from rfl]
  rw [normalizeImportedIngredients_arr r.ingredients hg2]
  have hserv : normalizeServings (JSValue.num (.finite r.servings)) =
      some r.servings := by
    simp [normalizeServings, not_le.mpr hs1, hs2]
  rw [hserv]
  simp [toImportedRecipe, hg1]

/-- C6 (amended): exporting a recipe collection and re-validating the export
payload reproduces the originals (modulo the generated id) exactly when every
recipe has trimmed non-empty name/prep-time/instructions, a non-empty list of
trimmed non-empty ingredient strings, and positive servings already rounded
to 2 decimals; the import path trims strings and rounds servings, so those
hygiene conditions are necessary for an identical round-trip. -/
theorem C6_export_import_roundtrip (rs : List Recipe)
    (h : ∀ r ∈ rs,
      jsTrim r.name = r.name ∧ r.name ≠ "" ∧
      jsTrim r.prepTime = r.prepTime ∧ r.prepTime ≠ "" ∧
      jsTrim r.instructions = r.instructions ∧ r.instructions ≠ "" ∧
      r.ingredients ≠ [] ∧ (∀ s ∈ r.ingredients, jsTrim s = s ∧ s ≠ "") ∧
      0 < r.servings ∧ round2 r.servings = r.servings) :
    validateImportedRecipes (exportRecipesPayload rs) = rs.map toImportedRecipe := by
  induction rs with
  | nil => rfl
  | cons r rs ih =>
    obtain ⟨hn1, hn2, hp1, hp2, hq1, hq2, hg1, hg2, hs1, hs2⟩ := h r (by simp)
    show validateImportedRecipes (exportRecipePayload r :: exportRecipesPayload rs) = _
    unfold validateImportedRecipes
    rw [List.filterMap_cons,
      validateOne_export r hn1 hn2 hp1 hp2 hq1 hq2 hg1 hg2 hs1 hs2]
    rw [show List.filterMap validateOneRecipe (exportRecipesPayload rs) =
      validateImportedRecipes (exportRecipesPayload rs) from rfl]
    rw [ih (fun x hx => h x (by simp [hx]))]
    rfl

/-- Witness for C6's amended round-trip at a concrete clean collection. -/
theorem C6_export_import_roundtrip_witness :
    validateImportedRecipes (exportRecipesPayload
      [⟨"r-1", "Pasta", "10 min", ["2 cups flour", "1 egg"], .dinner, 2, "Cook."⟩]) =
      [⟨"Pasta", "10 min", ["2 cups flour", "1 egg"], .dinner, 2, "Cook."⟩] := by
  rw [C6_export_import_roundtrip
    [⟨"r-1", "Pasta", "10 min", ["2 cups flour", "1 egg"], .dinner, 2, "Cook."⟩]
    (by intro r hr; simp at hr; subst hr; refine ⟨by decide, by decide, by decide, by decide,
      by decide, by decide, by decide, by decide, by decide, by decide⟩)]
  decide

theorem toNat_ofNat_small (n : ℕ) (h : n < 55296) : (Char.ofNat n).toNat = n := by
  unfold Char.ofNat
  have hv : n.isValidChar := Or.inl h
  simp only [hv, reduceDIte, Char.ofNatAux, Char.toNat]
  simp [UInt32.toNat]

theorem toLower_toUpper_char (c : Char) :
    Char.toLower (Char.toUpper c) = Char.toLower c := by
  unfold Char.toUpper
  by_cases h : c.toNat ≥ 97 ∧ c.toNat ≤ 122
  · rw [if_pos h]
    unfold Char.toLower
    have h1 : (Char.ofNat (c.toNat - 32)).toNat = c.toNat - 32 :=
      toNat_ofNat_small _ (by omega)
    rw [h1]
    rw [if_pos (by omega), if_neg (by omega)]
    have h2 : c.toNat - 32 + 32 = c.toNat := by omega
    rw [h2]
    apply Char.ofNat_toNat
  · rw [if_neg h]

theorem toLower_idem_char (c : Char) :
    Char.toLower (Char.toLower c) = Char.toLower c := by
  unfold Char.toLower
  by_cases h : c.toNat ≥ 65 ∧ c.toNat ≤ 90
  · rw [if_pos h]
    have h1 : (Char.ofNat (c.toNat + 32)).toNat = c.toNat + 32 :=
      toNat_ofNat_small _ (by omega)
    rw [h1, if_neg (by omega)]
  · rw [if_neg h, if_neg h]

theorem jsToLower_idem (s : String) : jsToLower (jsToLower s) = jsToLower s := by
  unfold jsToLower
  apply String.ext
  show ((s.data.map Char.toLower).map Char.toLower) = s.data.map Char.toLower
  rw [List.map_map]
  exact List.map_congr_left (fun c _ => toLower_idem_char c)

theorem map_toLower_titleCaseAux (flag : Bool) (l : List Char) :
    (titleCaseAux flag l).map Char.toLower = l.map Char.toLower := by
  induction l generalizing flag with
  | nil => rfl
  | cons c cs ih =>
    simp only [titleCaseAux, List.map_cons]
    rw [ih]
    congr 1
    by_cases h : isWordChar c && !flag
    · rw [if_pos h, toLower_toUpper_char]
    · rw [if_neg h]

theorem jsToLower_toTitleCase (s : String) (hs : jsToLower s = s) :
    jsToLower (toTitleCase s) = s := by
  unfold jsToLower toTitleCase
  apply String.ext
  show ((titleCaseAux false s.data).map Char.toLower) = s.data
  rw [map_toLower_titleCaseAux]
  have := congrArg String.data hs
  simpa [jsToLower] using this

theorem unitItemStep_item_lower (trimmed : String) (parts : List String) (q : Option ℚ)
    (i : Nat) :
    jsToLower (unitItemStep trimmed parts q i).item = (unitItemStep trimmed parts q i).item := by
  have h : ∃ x, (unitItemStep trimmed parts q i).item = jsToLower x := ⟨_, rfl⟩
  obtain ⟨x, hx⟩ := h
  rw [hx, jsToLower_idem]

theorem parse_item_lower (raw : String) :
    jsToLower (parseIngredientDetails raw).item = (parseIngredientDetails raw).item := by
  unfold parseIngredientDetails
  apply unitItemStep_item_lower

theorem unitItemStep_unit_mem (trimmed : String) (parts : List String) (q : Option ℚ)
    (i : Nat) :
    (unitItemStep trimmed parts q i).unit = none ∨
      ∃ u ∈ KNOWN_UNITS, (unitItemStep trimmed parts q i).unit = some u := by
  unfold unitItemStep
  cases hp : parts[i]? with
  | none => left; rfl
  | some tok =>
    by_cases hc : jsToLower tok ≠ "" ∧ KNOWN_UNITS.contains (jsToLower tok)
    · right
      have hmem : jsToLower tok ∈ KNOWN_UNITS := by simpa using hc.2
      exact ⟨jsToLower tok, hmem, by simp [hc.1, hmem]⟩
    · left
      have hneg : ¬(¬jsToLower tok = "" ∧ jsToLower tok ∈ KNOWN_UNITS) := by
        intro hcc
        exact hc ⟨hcc.1, by simpa using hcc.2⟩
      simp [hneg]

theorem parse_unit_mem (raw : String) :
    (parseIngredientDetails raw).unit = none ∨
      ∃ u ∈ KNOWN_UNITS, (parseIngredientDetails raw).unit = some u := by
  unfold parseIngredientDetails
  apply unitItemStep_unit_mem

theorem known_units_no_underscore : ∀ u ∈ KNOWN_UNITS, ∀ c ∈ u.data, ¬(c = '_') := by
  decide

theorem unitOrEach_no_underscore {u : Option String}
    (h : u = none ∨ ∃ s ∈ KNOWN_UNITS, u = some s) :
    ∀ c ∈ (unitOrEach u).data, ¬(c = '_') := by
  rcases h with h | ⟨s, hs, h⟩
  · subst h
    decide
  · subst h
    simpa [unitOrEach] using known_units_no_underscore s hs

theorem takeWhile_append_stop {α : Type} {p : α → Bool} {x : List α} {y : α} {ys : List α}
    (hx : ∀ c ∈ x, p c = true) (hy : p y = false) :
    (x ++ y :: ys).takeWhile p = x := by
  rw [takeWhile_append_of_all hx, List.takeWhile_cons, hy]
  simp

theorem append_sep_inj {a b u v : List Char}
    (hu : ∀ c ∈ u, ¬(c = '_')) (hv : ∀ c ∈ v, ¬(c = '_'))
    (h : a ++ '_' :: '_' :: u = b ++ '_' :: '_' :: v) : a = b ∧ u = v := by
  have hrev := congrArg List.reverse h
  have h1 : (a ++ '_' :: '_' :: u).reverse = u.reverse ++ '_' :: '_' :: a.reverse := by
    simp
  have h2 : (b ++ '_' :: '_' :: v).reverse = v.reverse ++ '_' :: '_' :: b.reverse := by
    simp
  rw [h1, h2] at hrev
  have hu' : ∀ c ∈ u.reverse, (fun c => !(c == '_')) c = true := by
    intro c hc
    simpa using hu c (List.mem_reverse.mp hc)
  have hv' : ∀ c ∈ v.reverse, (fun c => !(c == '_')) c = true := by
    intro c hc
    simpa using hv c (List.mem_reverse.mp hc)
  have ht := congrArg (List.takeWhile (fun c => !(c == '_'))) hrev
  rw [takeWhile_append_stop hu' (by decide), takeWhile_append_stop hv' (by decide)] at ht
  have huv : u = v := by
    have := congrArg List.reverse ht
    simpa using this
  subst huv
  refine ⟨?_, rfl⟩
  have := List.append_cancel_right h
  exact this

theorem shoppingKey_inj {i1 i2 u1 u2 : String}
    (h1 : ∀ c ∈ u1.data, ¬(c = '_')) (h2 : ∀ c ∈ u2.data, ¬(c = '_'))
    (he : i1 ++ "__" ++ u1 = i2 ++ "__" ++ u2) : i1 = i2 ∧ u1 = u2 := by
  have hd := congrArg String.data he
  simp only [String.data_append] at hd
  have hd' : i1.data ++ '_' :: '_' :: u1.data = i2.data ++ '_' :: '_' :: u2.data := by
    simpa using hd
  obtain ⟨ha, hb⟩ := append_sep_inj h1 h2 hd'
  exact ⟨String.ext ha, String.ext hb⟩

/-- The contributions to one string key of the `shoppingMap`. -/
def shoppingContribsStr (ps : List ParsedIngredient) (k : String) : List ℚ :=
  ps.filterMap (fun p => if shoppingKeyStr p = k then some (p.quantity.getD 1) else none)

theorem accumRound_append (xs : List ℚ) (q : ℚ) :
    accumRound (xs ++ [q]) = round2 (accumRound xs + q) := by
  unfold accumRound
  rw [List.foldl_append]
  rfl

theorem shoppingContribsStr_append (ps : List ParsedIngredient) (p : ParsedIngredient)
    (k : String) :
    shoppingContribsStr (ps ++ [p]) k =
      shoppingContribsStr ps k ++
        (if shoppingKeyStr p = k then [p.quantity.getD 1] else []) := by
  unfold shoppingContribsStr
  rw [List.filterMap_append]
  congr 1
  by_cases h : shoppingKeyStr p = k <;> simp [h]

theorem find?_key_isSome_of_mem {α : Type} (m : List (String × α)) (k : String)
    (h : k ∈ m.map Prod.fst) : (m.find? (fun e => e.1 == k)).isSome = true := by
  rcases List.mem_map.mp h with ⟨e, hem, hek⟩
  rw [List.find?_isSome]
  exact ⟨e, hem, by simp [hek]⟩

/-- The well-formedness of one accumulated `shoppingMap` entry: its key is
the item and unit that built it, the stored ingredient is the title-cased
item, and the item is lower-case-stable. -/
def shoppingEntryWF (e : String × ShoppingListItem) : Prop :=
  ∃ item unit, e.2.ingredient = toTitleCase item ∧ e.2.unit = unit ∧
    jsToLower item = item ∧ (unit = none ∨ ∃ u ∈ KNOWN_UNITS, unit = some u) ∧
    e.1 = item ++ "__" ++ unitOrEach unit

theorem insertShopping_fold_invariant (ps : List ParsedIngredient) :
    (∀ p ∈ ps, jsToLower p.item = p.item ∧
      (p.unit = none ∨ ∃ u ∈ KNOWN_UNITS, p.unit = some u)) →
    (ps.foldl insertShopping []).Pairwise (fun e1 e2 => e1.1 ≠ e2.1) ∧
    (∀ e ∈ ps.foldl insertShopping [], shoppingEntryWF e ∧
      e.2.quantity = accumRound (shoppingContribsStr ps e.1)) ∧
    (∀ p ∈ ps, shoppingKeyStr p ∈ (ps.foldl insertShopping []).map Prod.fst) := by
  induction ps using List.reverseRecOn with
  | nil => exact fun _ => ⟨List.Pairwise.nil, by simp, by simp⟩
  | append_singleton ps p ih =>
    intro hps
    obtain ⟨ihP, ihE, ihC⟩ := ih (fun x hx => hps x (List.mem_append_left _ hx))
    have hpfacts := hps p (List.mem_append_right _ (by simp))
    have hfold : (ps ++ [p]).foldl insertShopping [] =
        insertShopping (ps.foldl insertShopping []) p := by
      rw [List.foldl_append]
      rfl
    set m := ps.foldl insertShopping [] with hm
    by_cases hfound : (m.find? (fun e => e.1 == shoppingKeyStr p)).isSome = true
    · have heq : insertShopping m p = m.map (fun e =>
          if e.1 == shoppingKeyStr p then
            (e.1, { e.2 with quantity := round2 (e.2.quantity + p.quantity.getD 1) })
          else e) := by
        simp only [insertShopping, hfound, if_true]
      have hfst : ∀ e : String × ShoppingListItem,
          ((fun e => if e.1 == shoppingKeyStr p then
            (e.1, { e.2 with quantity := round2 (e.2.quantity + p.quantity.getD 1) })
          else e) e).1 = e.1 := by
        intro e
        by_cases h : e.1 == shoppingKeyStr p <;> simp [h]
      rw [hfold, heq]
      refine ⟨?_, ?_, ?_⟩
      · rw [List.pairwise_map]
        exact ihP.imp (fun h => by rw [hfst, hfst]; exact h)
      · intro e' he'
        rcases List.mem_map.mp he' with ⟨e, hem, hee⟩
        obtain ⟨⟨item, unit, hwf1, hwf2, hwf3, hwf4, hwf5⟩, hq⟩ := ihE e hem
        by_cases hk : e.1 == shoppingKeyStr p
        · have hkey : e.1 = shoppingKeyStr p := by simpa using hk
          have he2 : e' = (e.1,
              { e.2 with quantity := round2 (e.2.quantity + p.quantity.getD 1) }) := by
            rw [← hee]
            simp [hk]
          constructor
          · rw [he2]
            exact ⟨item, unit, hwf1, hwf2, hwf3, hwf4, hwf5⟩
          · rw [he2]
            show round2 (e.2.quantity + p.quantity.getD 1) =
              accumRound (shoppingContribsStr (ps ++ [p]) e.1)
            rw [shoppingContribsStr_append, if_pos hkey.symm, hq, accumRound_append]
        · have he2 : e' = e := by rw [← hee]; simp [hk]
          have hkey : ¬(shoppingKeyStr p = e.1) := by
            intro hh
            exact absurd (by simp [hh] : (e.1 == shoppingKeyStr p) = true) (by simpa using hk)
          constructor
          · rw [he2]
            exact ⟨item, unit, hwf1, hwf2, hwf3, hwf4, hwf5⟩
          · rw [he2, shoppingContribsStr_append, if_neg hkey, List.append_nil]
            exact hq
      · intro p' hp'
        have hkeys : (m.map (fun e =>
            if e.1 == shoppingKeyStr p then
              (e.1, { e.2 with quantity := round2 (e.2.quantity + p.quantity.getD 1) })
            else e)).map Prod.fst = m.map Prod.fst := by
          rw [List.map_map]
          exact List.map_congr_left (fun e _ => hfst e)
        rw [hkeys]
        rcases List.mem_append.mp hp' with hp' | hp'
        · exact ihC p' hp'
        · have : p' = p := by simpa using hp'
          subst this
          rcases Option.isSome_iff_exists.mp hfound with ⟨e, hfe⟩
          have hem := List.mem_of_find?_eq_some hfe
          have hpk : e.1 = shoppingKeyStr p' := by simpa using List.find?_some hfe
          rw [← hpk]
          exact List.mem_map_of_mem _ hem
    · have hnone : m.find? (fun e => e.1 == shoppingKeyStr p) = none :=
        Option.not_isSome_iff_eq_none.mp hfound
      have heq : insertShopping m p = m ++ [(shoppingKeyStr p,
          ⟨toTitleCase p.item, round2 (p.quantity.getD 1), p.unit⟩)] := by
        simp only [insertShopping, hfound]
        rfl
      have hkne : ∀ e ∈ m, ¬(e.1 = shoppingKeyStr p) := by
        intro e hem hh
        have := List.find?_eq_none.mp hnone e hem
        exact this (by simp [hh])
      have hcontrib_nil : shoppingContribsStr ps (shoppingKeyStr p) = [] := by
        unfold shoppingContribsStr
        rw [List.filterMap_eq_nil_iff]
        intro p' hp'
        by_cases hh : shoppingKeyStr p' = shoppingKeyStr p
        · exfalso
          have := ihC p' hp'
          rw [hh] at this
          exact absurd (find?_key_isSome_of_mem m _ this) hfound
        · simp [hh]
      rw [hfold, heq]
      refine ⟨?_, ?_, ?_⟩
      · rw [List.pairwise_append]
        refine ⟨ihP, by simp, ?_⟩
        intro e hem e' he'
        have : e' = (shoppingKeyStr p,
            ⟨toTitleCase p.item, round2 (p.quantity.getD 1), p.unit⟩) := by simpa using he'
        rw [this]
        exact hkne e hem
      · intro e' he'
        rcases List.mem_append.mp he' with he' | he'
        · obtain ⟨⟨item, unit, hwf1, hwf2, hwf3, hwf4, hwf5⟩, hq⟩ := ihE e' he'
          refine ⟨⟨item, unit, hwf1, hwf2, hwf3, hwf4, hwf5⟩, ?_⟩
          rw [shoppingContribsStr_append, if_neg (fun hh => hkne e' he' hh.symm),
            List.append_nil]
          exact hq
        · have he2 : e' = (shoppingKeyStr p,
              ⟨toTitleCase p.item, round2 (p.quantity.getD 1), p.unit⟩) := by simpa using he'
          rw [he2]
          refine ⟨⟨p.item, p.unit, rfl, rfl, hpfacts.1, hpfacts.2, rfl⟩, ?_⟩
          show round2 (p.quantity.getD 1) =
            accumRound (shoppingContribsStr (ps ++ [p]) (shoppingKeyStr p))
          rw [shoppingContribsStr_append, if_pos rfl, hcontrib_nil, List.nil_append]
          show round2 (p.quantity.getD 1) = round2 (0 + p.quantity.getD 1)
          rw [zero_add]
      · intro p' hp'
        rw [List.map_append]
        rcases List.mem_append.mp hp' with hp' | hp'
        · exact List.mem_append_left _ (ihC p' hp')
        · have : p' = p := by simpa using hp'
          subst this
          apply List.mem_append_right
          simp

theorem planParsed_facts (mealPlan : MealPlan) (recipes : List Recipe)
    (dates : List String) :
    ∀ p ∈ (planIngredients mealPlan recipes dates).map parseIngredientDetails,
      jsToLower p.item = p.item ∧
        (p.unit = none ∨ ∃ u ∈ KNOWN_UNITS, p.unit = some u) := by
  intro p hp
  rcases List.mem_map.mp hp with ⟨raw, _, hraw⟩
  subst hraw
  exact ⟨parse_item_lower raw, parse_unit_mem raw⟩

theorem rowKey_eq_of_WF {e : String × ShoppingListItem} (h : shoppingEntryWF e) :
    ∃ item unit, rowIdentityKey e.2 = (item, unitOrEach unit) ∧
      e.1 = item ++ "__" ++ unitOrEach unit ∧
      (unit = none ∨ ∃ u ∈ KNOWN_UNITS, unit = some u) := by
  obtain ⟨item, unit, h1, h2, h3, h4, h5⟩ := h
  refine ⟨item, unit, ?_, h5, h4⟩
  unfold rowIdentityKey
  rw [h1, h2, jsToLower_toTitleCase item h3]

theorem contribs_eq (mealPlan : MealPlan) (recipes : List Recipe) (dates : List String)
    (item u : String) (hu : ∀ c ∈ u.data, ¬(c = '_')) :
    shoppingContribsStr ((planIngredients mealPlan recipes dates).map parseIngredientDetails)
        (item ++ "__" ++ u) =
      contributions mealPlan recipes dates (item, u) := by
  unfold shoppingContribsStr contributions
  apply List.filterMap_congr
  intro p hp
  have hfacts := planParsed_facts mealPlan recipes dates p hp
  have hpu : ∀ c ∈ (unitOrEach p.unit).data, ¬(c = '_') :=
    unitOrEach_no_underscore hfacts.2
  by_cases h : shoppingKeyStr p = item ++ "__" ++ u
  · have hinj := shoppingKey_inj hpu hu h
    rw [if_pos h, if_pos (show parsedIdentityKey p = (item, u) by
      unfold parsedIdentityKey
      rw [hinj.1, hinj.2])]
  · rw [if_neg h, if_neg ?_]
    intro hpair
    apply h
    have h1 : p.item = item := congrArg Prod.fst hpair
    have h2 : unitOrEach p.unit = u := congrArg Prod.snd hpair
    show p.item ++ "__" ++ unitOrEach p.unit = item ++ "__" ++ u
    rw [h1, h2]

/-- C3: in every shopping list emitted by `buildPlanOutputs`, each identity
key (lower-cased item, unit-or-`each`) appears in at most one row, and that
row's quantity is the sum of all contributing parsed quantities (null
quantities replaced by 1) with the running total rounded to 2 decimal places
after each individual addition. -/
theorem C3_shopping_aggregation_invariant (cmp : String → String → Int)
    (mealPlan : MealPlan) (recipes : List Recipe) (start stop : String)
    (out : PlanOutputs)
    (h : buildPlanOutputs cmp mealPlan recipes start stop = some out) :
    (out.shoppingList.map rowIdentityKey).Nodup ∧
    ∀ r ∈ out.shoppingList,
      r.quantity = accumRound (contributions mealPlan recipes
        (dateRangeInclusive start stop) (rowIdentityKey r)) := by
  simp only [buildPlanOutputs] at h
  set dates := dateRangeInclusive start stop with hdates
  by_cases h1 : dates.isEmpty
  · rw [if_pos h1] at h
    exact absurd h (by simp)
  rw [if_neg h1] at h
  by_cases h2 : (buildItinerary mealPlan recipes dates).isEmpty
  · rw [if_pos h2] at h
    exact absurd h (by simp)
  rw [if_neg h2] at h
  have hout := Option.some.inj h
  have hsl : out.shoppingList =
      insertionSort (fun a b => decide (cmp a.ingredient b.ingredient ≤ 0))
        ((shoppingEntries mealPlan recipes dates).map Prod.snd) := by
    rw [← hout]
  obtain ⟨hP, hE, hC⟩ := insertShopping_fold_invariant
    ((planIngredients mealPlan recipes dates).map parseIngredientDetails)
    (planParsed_facts mealPlan recipes dates)
  have hperm : out.shoppingList.Perm
      (((planIngredients mealPlan recipes dates).map parseIngredientDetails).foldl
        insertShopping [] |>.map Prod.snd) := by
    rw [hsl]
    exact insertionSort_perm _ _
  constructor
  · have hN : List.Pairwise (fun a b => a ≠ b)
        ((((planIngredients mealPlan recipes dates).map parseIngredientDetails).foldl
          insertShopping []).map (fun e => rowIdentityKey e.2)) := by
      rw [List.pairwise_map]
      refine List.Pairwise.imp_of_mem ?_ hP
      intro e1 e2 h1m h2m hne hcontra
      obtain ⟨i1, u1, hr1, hk1, _⟩ := rowKey_eq_of_WF (hE e1 h1m).1
      obtain ⟨i2, u2, hr2, hk2, _⟩ := rowKey_eq_of_WF (hE e2 h2m).1
      apply hne
      rw [hk1, hk2]
      rw [hr1, hr2] at hcontra
      rw [show i1 = i2 from congrArg Prod.fst hcontra,
        show unitOrEach u1 = unitOrEach u2 from congrArg Prod.snd hcontra]
    have hmp := hperm.map rowIdentityKey
    rw [List.map_map] at hmp
    exact hmp.symm.nodup hN
  · intro r hr
    have hrm : r ∈ (((planIngredients mealPlan recipes dates).map
        parseIngredientDetails).foldl insertShopping []).map Prod.snd :=
      hperm.mem_iff.mp hr
    rcases List.mem_map.mp hrm with ⟨e, hem, hesnd⟩
    obtain ⟨hWF, hq⟩ := hE e hem
    obtain ⟨item, unit, hrow, hkey, hunit⟩ := rowKey_eq_of_WF hWF
    rw [← hesnd, hq, hkey, hrow]
    rw [contribs_eq mealPlan recipes dates item (unitOrEach unit)
      (unitOrEach_no_underscore hunit)]

def c3Rice1 : Recipe := ⟨"r1", "Rice A", "5", ["1 cup rice"], .breakfast, 1, "x"⟩

def c3Rice2 : Recipe :=
  ⟨"r2", "Rice B", "5", ["2 cup rice", "1/3 cup beans"], .lunch, 1, "y"⟩

def c3Day : DayPlan := fun meal =>
  match meal with
  | .breakfast => some "r1"
  | .lunch => some "r2"
  | _ => none

def c3Plan : MealPlan := fun d => if d = "2024-01-01" then some c3Day else none

def c3Out : PlanOutputs :=
  ⟨[⟨"Beans", 33/100, some "cup"⟩, ⟨"Rice", 3, some "cup"⟩],
   [⟨"2024-01-01", [(.breakfast, c3Rice1), (.lunch, c3Rice2)]⟩],
   [c3Rice1, c3Rice2], 2⟩

/-- Witness for C3 at a concrete one-day plan aggregating `1 cup rice` and
`2 cup rice` from two recipes into the single row `Rice, 3, cup`. -/
theorem C3_shopping_aggregation_invariant_witness :
    (c3Out.shoppingList.map rowIdentityKey).Nodup ∧
    ∀ r ∈ c3Out.shoppingList,
      r.quantity = accumRound (contributions c3Plan [c3Rice1, c3Rice2]
        (dateRangeInclusive "2024-01-01" "2024-01-01") (rowIdentityKey r)) :=
  C3_shopping_aggregation_invariant codeUnitCompare c3Plan [c3Rice1, c3Rice2]
    "2024-01-01" "2024-01-01" c3Out (by decide)
